import Mathlib

/-!
Shallow embedding of the document-ingestion and identity-matching core of the
daily-order upload / karigar-mapping repository, together with proofs about it.

Strings are modelled as `List Char` (JS strings at code-point level; `null` /
`undefined` cells are modelled as the empty list, which is how every consumer
in the source treats them via `String(cell || '')` and the `!value` guards).
-/

namespace DailyOrders

abbrev Str := List Char

/-! ## Text normalizer — src/frontend/src/utils/textNormalize.ts -/

/-- Zero-width characters removed by `normalizeCellValue`
(regex `[​-‍﻿]`). -/
def isZeroWidth (c : Char) : Bool :=
  (0x200B ≤ c.toNat && c.toNat ≤ 0x200D) || c.toNat == 0xFEFF

/-- Invisible/control characters removed by `normalizeCellValue`
(regex `[\u0000-\u0008\u000B-\u000C\u000E-\u001F\u007F-\u009F]`). -/
def isInvisibleControl (c : Char) : Bool :=
  (c.toNat ≤ 0x0008) ||
  (0x000B ≤ c.toNat && c.toNat ≤ 0x000C) ||
  (0x000E ≤ c.toNat && c.toNat ≤ 0x001F) ||
  (0x007F ≤ c.toNat && c.toNat ≤ 0x009F)

/-- Unicode dash variants folded to ASCII hyphen
(regex `[‐-―−]`). -/
def isUnicodeDash (c : Char) : Bool :=
  (0x2010 ≤ c.toNat && c.toNat ≤ 0x2015) || c.toNat == 0x2212

/-- Unicode single-quote variants folded to ASCII apostrophe
(regexes `[‘’]` and `[′″]`). -/
def isSingleQuoteVariant (c : Char) : Bool :=
  c.toNat == 0x2018 || c.toNat == 0x2019 || c.toNat == 0x2032 || c.toNat == 0x2033

/-- Unicode double-quote variants folded to ASCII double quote
(regex `[“”]`). -/
def isDoubleQuoteVariant (c : Char) : Bool :=
  c.toNat == 0x201C || c.toNat == 0x201D

/-- The character class matched by the JavaScript regex `\s`. -/
def isJsWhitespace (c : Char) : Bool :=
  (0x0009 ≤ c.toNat && c.toNat ≤ 0x000D) || c.toNat == 0x0020 ||
  c.toNat == 0x00A0 || c.toNat == 0x1680 ||
  (0x2000 ≤ c.toNat && c.toNat ≤ 0x200A) ||
  c.toNat == 0x2028 || c.toNat == 0x2029 || c.toNat == 0x202F ||
  c.toNat == 0x205F || c.toNat == 0x3000 || c.toNat == 0xFEFF

/-- The per-character effect of the replacement steps of `normalizeCellValue`:
non-breaking space to space, dash variants to `-`, quote variants to `'` / `"`.
The classes are disjoint, so the sequence of global `replace` calls acts
character-wise. -/
def mapSpecialChar (c : Char) : Char :=
  if c.toNat == 0x00A0 then ' '
  else if isUnicodeDash c then '-'
  else if isSingleQuoteVariant c then Char.ofNat 39
  else if isDoubleQuoteVariant c then '"'
  else c

/-- `replace(/\s+/g, ' ')`: collapse every maximal whitespace run to one
space.  The flag records whether the previous character was whitespace. -/
def collapseWsAux : Bool → Str → Str
  | _, [] => []
  | inWs, c :: rest =>
    if isJsWhitespace c then
      if inWs then collapseWsAux true rest
      else ' ' :: collapseWsAux true rest
    else c :: collapseWsAux false rest

def collapseWs (s : Str) : Str := collapseWsAux false s

/-- Remove a maximal whitespace suffix (the right half of `String.trim`). -/
def dropTrailingWs : Str → Str
  | [] => []
  | c :: rest =>
    let r := dropTrailingWs rest
    if r = [] && isJsWhitespace c then [] else c :: r

/-- JavaScript `String.prototype.trim`. -/
def jsTrim (s : Str) : Str := dropTrailingWs (s.dropWhile isJsWhitespace)

/-- `normalizeCellValue` from textNormalize.ts: strip zero-width characters,
strip invisible control characters, fold NBSP/dashes/quotes, collapse
whitespace runs to single spaces, trim. -/
def normalizeCellValue (s : Str) : Str :=
  jsTrim (collapseWs
    (((s.filter (fun c => !isZeroWidth c)).filter
        (fun c => !isInvisibleControl c)).map mapSpecialChar))

/-- ASCII lowercasing, the effect of JS `toLowerCase` on the code points this
code base compares (modelled at the ASCII range, as in Lean's `Char.toLower`). -/
def toLowerChar (c : Char) : Char :=
  if 65 ≤ c.toNat && c.toNat ≤ 90 then Char.ofNat (c.toNat + 32) else c

/-- JS `\w`: `[A-Za-z0-9_]`. -/
def isWordChar (c : Char) : Bool :=
  (0x41 ≤ c.toNat && c.toNat ≤ 0x5A) || (0x61 ≤ c.toNat && c.toNat ≤ 0x7A) ||
  (0x30 ≤ c.toNat && c.toNat ≤ 0x39) || c.toNat == 0x5F

/-- `normalizeHeader` from textNormalize.ts: cell normalization, lowercase,
drop everything outside `\w` and `\s`, re-collapse whitespace, trim. -/
def normalizeHeader (s : Str) : Str :=
  jsTrim (collapseWs
    (((normalizeCellValue s).map toLowerChar).filter
      (fun c => isWordChar c || isJsWhitespace c)))

/-- `normalizeDesignCode` from textNormalize.ts: cell normalization then
lowercase; punctuation is preserved. -/
def normalizeDesignCode (s : Str) : Str :=
  (normalizeCellValue s).map toLowerChar

/-- JS `String.prototype.includes`: `strIncludes s sub` is true when `sub`
occurs contiguously inside `s`. -/
def strIncludes : Str → Str → Bool
  | [], sub => sub.isEmpty
  | c :: cs, sub => List.isPrefixOf sub (c :: cs) || strIncludes cs sub

/-- `matchesHeaderAlias` from textNormalize.ts: the normalized header matches
when it equals or contains some normalized alias. -/
def matchesHeaderAlias (header : Str) (aliases : List Str) : Bool :=
  let normalized := normalizeHeader header
  if normalized = [] then false
  else aliases.any fun a =>
    let normalizedAlias := normalizeHeader a
    normalized == normalizedAlias || strIncludes normalized normalizedAlias

example : normalizeCellValue "  AB‒12  ".toList = "AB-12".toList := by decide
example : normalizeDesignCode "AB-12".toList = "ab-12".toList := by decide
example : normalizeHeader "Design No.".toList = "design no".toList := by decide
example : matchesHeaderAlias "Order No.".toList ["order no".toList] = true := by decide

/-! ## Order sheet parsing — parseDailyOrders.ts -/

abbrev Cell := Str
abbrev GridRow := List Cell
abbrev Grid := List GridRow

/-- ASCII apostrophe, as it occurs inside the alias `remark's`. -/
def apos : Char := Char.ofNat 39

def COLUMN_ALIASES_orderNo : List Str :=
  ["order no".toList, "order no.".toList, "orderno".toList, "order number".toList,
   "order #".toList, "order".toList, "sr no".toList, "sr no.".toList, "serial no".toList]

def COLUMN_ALIASES_design : List Str :=
  ["design".toList, "design code".toList, "designcode".toList, "design no".toList,
   "design no.".toList, "item".toList, "item code".toList]

def COLUMN_ALIASES_weight : List Str :=
  ["weight".toList, "wt".toList, "wt.".toList, "net wt".toList, "net wt.".toList,
   "net weight".toList, "gross wt".toList, "gross weight".toList, "netwt".toList]

def COLUMN_ALIASES_size : List Str :=
  ["size".toList, "sz".toList, "sz.".toList, "dimension".toList, "dimensions".toList,
   "dim".toList]

def COLUMN_ALIASES_quantity : List Str :=
  ["quantity".toList, "qty".toList, "qty.".toList, "quan".toList, "quan.".toList,
   "count".toList, "pieces".toList, "pcs".toList, "nos".toList]

def COLUMN_ALIASES_remarks : List Str :=
  ["remarks".toList, "remark".toList, "remark".toList ++ [apos] ++ "s".toList,
   "note".toList, "notes".toList, "comment".toList, "comments".toList,
   "description".toList, "desc".toList, "rmks".toList]

/-- `scoreHeaderRow` from parseDailyOrders.ts. -/
def scoreHeaderRow (row : GridRow) : Nat :=
  let nonEmpty := (row.filter (fun cell => !(jsTrim cell).isEmpty)).length
  if nonEmpty < 3 then 0
  else
    let foundOrderNo := row.any (fun h => matchesHeaderAlias h COLUMN_ALIASES_orderNo)
    let foundDesign := row.any (fun h => matchesHeaderAlias h COLUMN_ALIASES_design)
    let foundWeight := row.any (fun h => matchesHeaderAlias h COLUMN_ALIASES_weight)
    let foundSize := row.any (fun h => matchesHeaderAlias h COLUMN_ALIASES_size)
    let foundQuantity := row.any (fun h => matchesHeaderAlias h COLUMN_ALIASES_quantity)
    let foundRemarks := row.any (fun h => matchesHeaderAlias h COLUMN_ALIASES_remarks)
    10 * ((if foundOrderNo then 1 else 0) + (if foundDesign then 1 else 0) +
          (if foundWeight then 1 else 0) + (if foundSize then 1 else 0) +
          (if foundQuantity then 1 else 0) + (if foundRemarks then 1 else 0)) +
      (if foundOrderNo then 20 else 0) + (if foundDesign then 20 else 0)

/-- The scan loop of `detectHeaderRow`: track the best (index, score) pair,
updating only on a strictly larger score. -/
def detectAux : Grid → Nat → Nat → Nat → Nat × Nat
  | [], _, bestIdx, bestScore => (bestIdx, bestScore)
  | row :: rest, i, bestIdx, bestScore =>
    let s := scoreHeaderRow row
    if bestScore < s then detectAux rest (i + 1) i s
    else detectAux rest (i + 1) bestIdx bestScore

/-- `detectHeaderRow` from parseDailyOrders.ts with the default
`maxRowsToScan = 20`: best-scoring row among the first 20 if its score
reaches 20, else row 0. -/
def detectHeaderRow (rows : Grid) : Nat :=
  let best := detectAux (rows.take 20) 0 0 0
  if 20 ≤ best.2 then best.1 else 0

/-- `findColumnIndex` from parseDailyOrders.ts (`none` models `-1`). -/
def findColumnIndex (headers : GridRow) (aliases : List Str) : Option Nat :=
  headers.findIdx? (fun h => matchesHeaderAlias h aliases)

/-- `extractCellValue` from parseDailyOrders.ts (null cells are `[]`). -/
def extractCellValue (cell : Cell) : Str := normalizeCellValue cell

structure ParsedOrder where
  orderNo : Str
  design : Str
  weight : Str
  size : Str
  quantity : Str
  remarks : Str
deriving DecidableEq, Repr

inductive WarningType
  | missingColumns
  | nonFirstHeader
deriving DecidableEq, Repr

structure ParseWarning where
  type : WarningType
  missingColumns : List Str := []
  detectedHeaders : List Str := []
  headerRowIndex : Option Nat := none
  message : Str := []
deriving DecidableEq, Repr

structure ParseResult where
  orders : List ParsedOrder
  warnings : List ParseWarning
deriving DecidableEq, Repr

instance {α β : Type} [DecidableEq α] [DecidableEq β] : DecidableEq (Except α β)
  | .error a, .error b =>
    if h : a = b then isTrue (by rw [h])
    else isFalse (by intro hh; cases hh; exact h rfl)
  | .error _, .ok _ => isFalse (by intro h; cases h)
  | .ok _, .error _ => isFalse (by intro h; cases h)
  | .ok a, .ok b =>
    if h : a = b then isTrue (by rw [h])
    else isFalse (by intro hh; cases hh; exact h rfl)

/-- `Array.prototype.join` with a separator. -/
def joinSep (sep : Str) : List Str → Str
  | [] => []
  | [x] => x
  | x :: y :: rest => x ++ sep ++ joinSep sep (y :: rest)

def natStr (n : Nat) : Str := (Nat.repr n).toList

/-- The trimmed non-empty header cells, as listed in diagnostics. -/
def detectedHeadersList (headers : GridRow) : List Str :=
  (headers.filter (fun h => !(jsTrim h).isEmpty)).map jsTrim

/-- The joined detected-header text of the critical-column error, with the
`(none)` fallback for an all-empty header row. -/
def detectedHeadersText (headers : GridRow) : Str :=
  let joined := joinSep ", ".toList (detectedHeadersList headers)
  if joined = [] then "(none)".toList else joined

/-- The fatal error message for missing Order No / Design columns. -/
def missingCriticalMessage (missingCritical : List Str) (headerRowIndex : Nat)
    (detectedHeaders : Str) : Str :=
  "Cannot parse file: Missing critical columns: ".toList ++
    joinSep ", ".toList missingCritical ++ ".".toList ++
    "\nDetected headers in row ".toList ++ natStr (headerRowIndex + 1) ++
    ": ".toList ++ detectedHeaders ++
    "\nPlease ensure your file contains at minimum \"Order No\" and \"Design\" columns.".toList

def nonFirstHeaderMessage (headerRowIndex : Nat) : Str :=
  "Headers detected on row ".toList ++ natStr (headerRowIndex + 1) ++
    " (not the first row). Rows 1-".toList ++ natStr headerRowIndex ++
    " were skipped.".toList

def missingOptionalMessage (missingOptional : List Str) (headersJoined : Str) : Str :=
  "Optional columns not found: ".toList ++ joinSep ", ".toList missingOptional ++
    ". These fields will be empty. Detected headers: ".toList ++ headersJoined

/-- Extract one order field: `columnIndices.f !== -1 ? extractCellValue(row[i]) : ''`. -/
def extractAt (row : GridRow) : Option Nat → Str
  | some i => extractCellValue (row.getD i [])
  | none => []

/-- The grid-level body of `parseDailyOrders` from parseDailyOrders.ts (the
part after file decoding): header detection, column resolution, warnings,
row extraction, blank-row filtering. -/
def parseDailyOrdersGrid (rows : Grid) : Except Str ParseResult :=
  if rows.length = 0 then Except.error "File is empty".toList
  else
    let headerRowIndex := detectHeaderRow rows
    let headers := rows.getD headerRowIndex []
    let idxOrderNo := findColumnIndex headers COLUMN_ALIASES_orderNo
    let idxDesign := findColumnIndex headers COLUMN_ALIASES_design
    let idxWeight := findColumnIndex headers COLUMN_ALIASES_weight
    let idxSize := findColumnIndex headers COLUMN_ALIASES_size
    let idxQuantity := findColumnIndex headers COLUMN_ALIASES_quantity
    let idxRemarks := findColumnIndex headers COLUMN_ALIASES_remarks
    if idxOrderNo = none ∨ idxDesign = none then
      let missingCritical :=
        (if idxOrderNo = none then ["Order No".toList] else []) ++
        (if idxDesign = none then ["Design".toList] else [])
      Except.error (missingCriticalMessage missingCritical headerRowIndex
        (detectedHeadersText headers))
    else
      let missingOptional :=
        (if idxWeight = none then ["Weight".toList] else []) ++
        (if idxSize = none then ["Size".toList] else []) ++
        (if idxQuantity = none then ["Quantity".toList] else []) ++
        (if idxRemarks = none then ["Remarks".toList] else [])
      let warnings :=
        (if 0 < headerRowIndex then
          [{ type := WarningType.nonFirstHeader,
             headerRowIndex := some (headerRowIndex + 1),
             message := nonFirstHeaderMessage headerRowIndex : ParseWarning }]
         else []) ++
        (if missingOptional = [] then []
         else
          [{ type := WarningType.missingColumns,
             missingColumns := missingOptional,
             detectedHeaders := detectedHeadersList headers,
             headerRowIndex := some (headerRowIndex + 1),
             message := missingOptionalMessage missingOptional
               (joinSep ", ".toList (detectedHeadersList headers)) : ParseWarning }])
      let dataRows := rows.drop (headerRowIndex + 1)
      let orders := dataRows.map (fun row =>
        { orderNo := extractAt row idxOrderNo
          design := extractAt row idxDesign
          weight := extractAt row idxWeight
          size := extractAt row idxSize
          quantity := extractAt row idxQuantity
          remarks := extractAt row idxRemarks : ParsedOrder })
      let validOrders := orders.filter (fun o => !(o.orderNo.isEmpty && o.design.isEmpty))
      if validOrders = [] then Except.error "No valid orders found in the file".toList
      else Except.ok { orders := validOrders, warnings := warnings }

example :
    parseDailyOrdersGrid
      [["Order No".toList, "Design".toList, "Qty".toList],
       ["101".toList, "AB-12".toList, "2".toList]] =
    Except.ok
      { orders := [{ orderNo := "101".toList, design := "AB-12".toList,
                     weight := [], size := [], quantity := "2".toList, remarks := [] }],
        warnings := [{ type := WarningType.missingColumns,
                       missingColumns := ["Weight".toList, "Size".toList, "Remarks".toList],
                       detectedHeaders := ["Order No".toList, "Design".toList, "Qty".toList],
                       headerRowIndex := some 1,
                       message := missingOptionalMessage
                         ["Weight".toList, "Size".toList, "Remarks".toList]
                         "Order No, Design, Qty".toList }] } := by decide

/-! ## Mapping sheet parsing — parseKarigarMapping.ts (Master Design File
variant: Design Code, Generic Name and Karigar Name all required) -/

/-- JS `Map.prototype.has` on an insertion-ordered association list. -/
def jsMapHas {α : Type} (m : List (Str × α)) (k : Str) : Bool :=
  m.any (fun p => p.1 == k)

/-- JS `Map.prototype.get`. -/
def jsMapGet {α : Type} (m : List (Str × α)) (k : Str) : Option α :=
  (m.find? (fun p => p.1 == k)).map (fun p => p.2)

/-- JS `Map.prototype.set`: update in place when the key exists (keeping its
insertion position), append otherwise. -/
def jsMapSet {α : Type} (m : List (Str × α)) (k : Str) (v : α) : List (Str × α) :=
  if jsMapHas m k then m.map (fun p => if p.1 == k then (k, v) else p)
  else m ++ [(k, v)]

structure KarigarMappingEntry where
  design : Str
  designNormalized : Str
  karigar : Str
  genericName : Str
deriving DecidableEq, Repr

abbrev EntryMap := List (Str × KarigarMappingEntry)

def mappingDesignAliases : List Str :=
  ["design".toList, "product".toList, "code".toList, "design code".toList,
   "product code".toList, "item".toList, "item code".toList, "style".toList]

def mappingKarigarAliases : List Str :=
  ["karigar".toList, "artisan".toList, "worker".toList, "craftsman".toList,
   "maker".toList]

def mappingNameAliases : List Str :=
  ["name".toList, "product name".toList, "generic".toList, "generic name".toList,
   "item name".toList, "description".toList]

/-- `looksLikeNumericRatio` from parseKarigarMapping.ts: the trimmed value
matches `^[\d\s+\-:/]+$`. -/
def looksLikeNumericRatio (value : Str) : Bool :=
  if value = [] then false
  else
    let trimmed := jsTrim value
    !trimmed.isEmpty && trimmed.all (fun c =>
      (0x30 ≤ c.toNat && c.toNat ≤ 0x39) || isJsWhitespace c ||
      c == '+' || c == '-' || c == ':' || c == '/')

/-- One iteration of the header-search loop of `tryParseSheet`: locate the
design, karigar and generic-name columns in a candidate row (all three are
required; the generic-name cell must not look like a numeric ratio). -/
def checkMappingHeaderRow (row : GridRow) : Option (Nat × Nat × Nat) :=
  if row.length < 3 then none
  else
    let designIndex := row.findIdx? (fun cell => matchesHeaderAlias cell mappingDesignAliases)
    let karigarIndex := row.findIdx? (fun cell => matchesHeaderAlias cell mappingKarigarAliases)
    let nameIndex := row.findIdx? (fun cell =>
      matchesHeaderAlias cell mappingNameAliases && !looksLikeNumericRatio cell)
    match designIndex, karigarIndex, nameIndex with
    | some d, some k, some n => some (d, k, n)
    | _, _, _ => none

/-- The header-search loop of `tryParseSheet`: scan the first
`min(10, rows.length)` rows, stopping at the first full match. -/
def findMappingHeaderAux : Grid → Nat → Option (Nat × Nat × Nat × Nat)
  | [], _ => none
  | row :: rest, i =>
    if i < 10 then
      match checkMappingHeaderRow row with
      | some (d, k, n) => some (i, d, k, n)
      | none => findMappingHeaderAux rest (i + 1)
    else none

def findMappingHeader (rows : Grid) : Option (Nat × Nat × Nat × Nat) :=
  findMappingHeaderAux rows 0

/-- The generic-name computation of a `tryParseSheet` data row: the
normalized cell when it is in range, non-empty and not a numeric ratio,
otherwise the empty string. -/
def mappingGenericName (nameColIndex : Nat) (row : GridRow) : Str :=
  let genericNameRaw :=
    if nameColIndex < row.length then normalizeCellValue (row.getD nameColIndex []) else []
  if !genericNameRaw.isEmpty && !looksLikeNumericRatio genericNameRaw
  then genericNameRaw else []

/-- The per-data-row computation of `tryParseSheet`: the produced
`(designNormalized, entry)` pair, or `none` when the row is skipped. -/
def mappingRowEntry (designColIndex karigarColIndex nameColIndex : Nat)
    (row : GridRow) : Option (Str × KarigarMappingEntry) :=
  if row = [] then none
  else
    let design := normalizeCellValue (row.getD designColIndex [])
    let karigar := normalizeCellValue (row.getD karigarColIndex [])
    let genericName := mappingGenericName nameColIndex row
    if design.isEmpty || karigar.isEmpty || genericName.isEmpty then none
    else if strIncludes (normalizeHeader design) "design".toList ||
            strIncludes (normalizeHeader karigar) "karigar".toList then none
    else
      let designNormalized := normalizeDesignCode design
      if designNormalized.isEmpty then none
      else some (designNormalized,
        { design := design, designNormalized := designNormalized,
          karigar := karigar, genericName := genericName })

/-- The data-row loop of `tryParseSheet`: `sheetEntries.set(...)` for each
produced entry (an unconditional `Map.set`, so later rows overwrite). -/
def processMappingRows (d k n : Nat) (rows : Grid) : EntryMap :=
  rows.foldl (fun m row =>
    match mappingRowEntry d k n row with
    | none => m
    | some (key, e) => jsMapSet m key e) []

structure SheetParseResult where
  sheetName : Str
  entries : EntryMap
  error : Option Str := none
deriving DecidableEq, Repr

def sheetEmptyMessage (sheetName : Str) : Str :=
  "Sheet \"".toList ++ sheetName ++ "\" is empty".toList

/-- The missing-column error of `tryParseSheet`.  On this path the three
column indices are all still `-1` (they are only assigned when all three are
found together), so the missing list always names all three columns. -/
def sheetMissingColumnsMessage (sheetName : Str) (rows : Grid) : Str :=
  let detectedHeaders :=
    if 0 < rows.length
    then joinSep ", ".toList (((rows.getD 0 []).take 5).filter (fun h => !h.isEmpty))
    else "none".toList
  "Sheet \"".toList ++ sheetName ++ "\": Missing required column(s): ".toList ++
    joinSep ", ".toList
      ["Design Code".toList, "Generic Name".toList, "Karigar Name".toList] ++
    ". Detected headers: ".toList ++
    (if detectedHeaders = [] then "none".toList else detectedHeaders)

def sheetNoEntriesMessage (sheetName : Str) : Str :=
  "Sheet \"".toList ++ sheetName ++
    "\": No valid design-karigar mappings found after parsing (all rows were empty or missing required fields)".toList

/-- `tryParseSheet` from parseKarigarMapping.ts, at grid level. -/
def tryParseSheetGrid (sheetName : Str) (rows : Grid) : SheetParseResult :=
  if rows = [] then
    { sheetName := sheetName, entries := [],
      error := some (sheetEmptyMessage sheetName) }
  else
    match findMappingHeader rows with
    | none =>
      { sheetName := sheetName, entries := [],
        error := some (sheetMissingColumnsMessage sheetName rows) }
    | some (h, d, k, n) =>
      if processMappingRows d k n (rows.drop (h + 1)) = [] then
        { sheetName := sheetName, entries := [],
          error := some (sheetNoEntriesMessage sheetName) }
      else { sheetName := sheetName,
             entries := processMappingRows d k n (rows.drop (h + 1)),
             error := none }

def noSheetsMessage : Str :=
  "The workbook contains no sheets. Please upload a valid Excel file.".toList

def noValidSheetsFallback : Str :=
  "No valid sheets found. Please ensure your Master Design File contains all three required columns: Design Code, Generic Name, and Karigar Name.".toList

/-- The workbook-level body of `parseExcelMapping` from
parseKarigarMapping.ts (after spreadsheet decoding): every sheet is
attempted; sheets with at least one entry are kept; the upload fails only
when no sheet yields entries, with every failed sheet's error joined. -/
def parseExcelMappingGrids (workbook : List (Str × Grid)) :
    Except Str (List (Str × EntryMap)) :=
  if workbook = [] then Except.error noSheetsMessage
  else
    let parseResults := workbook.map (fun p => tryParseSheetGrid p.1 p.2)
    let result := parseResults.filterMap (fun r =>
      if r.entries ≠ [] then some (r.sheetName, r.entries) else none)
    if result = [] then
      let errorMessages := joinSep "\n\n".toList (parseResults.filterMap (fun r => r.error))
      Except.error (if errorMessages = [] then noValidSheetsFallback else errorMessages)
    else Except.ok result

/-! ## Blob codec — karigarMappingBlobCodec.ts -/

/-- One entry of a persisted mapping blob, at JSON-value level: every field
may be absent or empty. -/
structure RawBlobEntry where
  design : Option Str := none
  designNormalized : Option Str := none
  karigar : Option Str := none
  genericName : Option Str := none
deriving DecidableEq, Repr

structure DecodedEntry where
  design : Str
  designNormalized : Str
  karigar : Str
  genericName : Option Str
deriving DecidableEq, Repr

/-- JS `x || ''` on a possibly-absent string. -/
def jsOrEmpty (o : Option Str) : Str := o.getD []

/-- The per-entry mapping of `decodeBlobToMapping`: the stored
`designNormalized` is ignored and recomputed from the stored `design`. -/
def decodeEntry (e : RawBlobEntry) : DecodedEntry :=
  { design := jsOrEmpty e.design
    designNormalized := normalizeDesignCode (jsOrEmpty e.design)
    karigar := jsOrEmpty e.karigar
    genericName :=
      match e.genericName with
      | some s => if s.isEmpty then none else some s
      | none => none }

/-- `decodeBlobToMapping` from karigarMappingBlobCodec.ts at JSON-value
level: sheets that are not objects carrying an `entries` array (`none`) are
skipped; every entry is re-normalized via `decodeEntry`. -/
def decodeBlobToMapping (data : List (Str × Option (List RawBlobEntry))) :
    List (Str × List DecodedEntry) :=
  data.filterMap (fun p =>
    match p.2 with
    | none => none
    | some entries => some (p.1, entries.map decodeEntry))

/-! ## Sheet read order and lookup — getMappingSheetReadOrder.ts,
useKarigarMappingLookup.ts, and the enrichment in the order-list tab -/

def prioritySheets : List Str := ["1".toList, "3".toList, "2".toList]

/-- Code-point lexicographic comparison, modelling the
`(a, b) => a.localeCompare(b)` comparator on the sheet names this
code base sorts. -/
def lexLe : Str → Str → Bool
  | [], _ => true
  | _ :: _, [] => false
  | c :: cs, d :: ds =>
    if c.toNat < d.toNat then true
    else if d.toNat < c.toNat then false
    else lexLe cs ds

/-- The relation `lexLe` as a `Prop`-valued order, for sorting. -/
def lexLeR (a b : Str) : Prop := lexLe a b = true

instance : DecidableRel lexLeR := fun a b => inferInstanceAs (Decidable (lexLe a b = true))

/-- The `remaining.sort(...)` call: a stable sort by the comparator
(insertion sort, which is stable like the JS engine sort). -/
def sortSheetNames (l : List Str) : List Str := List.insertionSort lexLeR l

/-- `getMappingSheetReadOrder` from getMappingSheetReadOrder.ts: priority
sheets `"1", "3", "2"` that exist, in that order, then the remaining names
sorted. -/
def getMappingSheetReadOrder (availableSheetNames : List Str) : List Str :=
  let result := prioritySheets.foldl
    (fun acc p => if availableSheetNames.contains p then acc ++ [p] else acc) []
  let remaining := availableSheetNames.foldl
    (fun acc s => if prioritySheets.contains s then acc else acc ++ [s]) []
  result ++ sortSheetNames remaining

structure LookupInfo where
  karigar : Str
  genericName : Option Str
deriving DecidableEq, Repr

abbrev MappingLookup := List (Str × LookupInfo)

/-- The inner entry loop of `useKarigarMappingLookup`: recompute the key
from the stored design, skip empty keys, insert only when absent. -/
def addSheetEntries (lookup : MappingLookup) (entries : List DecodedEntry) :
    MappingLookup :=
  entries.foldl (fun lk entry =>
    let normalizedKey := normalizeDesignCode entry.design
    if normalizedKey.isEmpty then lk
    else if jsMapHas lk normalizedKey then lk
    else lk ++ [(normalizedKey,
      { karigar := entry.karigar, genericName := entry.genericName })]) lookup

/-- The lookup construction of `useKarigarMappingLookup`: walk the decoded
sheets in `getMappingSheetReadOrder` order; earlier sheets win on duplicate
keys. -/
def buildMappingLookup (mappingData : List (Str × List DecodedEntry)) :
    MappingLookup :=
  let availableSheetNames := mappingData.map (fun p => p.1)
  let sheetsToRead := getMappingSheetReadOrder availableSheetNames
  sheetsToRead.foldl (fun lookup sheetName =>
    match jsMapGet mappingData sheetName with
    | none => lookup
    | some entries => addSheetEntries lookup entries) []

structure EnrichedOrder where
  orderNo : Str
  design : Str
  weight : Str
  size : Str
  quantity : Str
  remarks : Str
  genericName : Option Str
  karigar : Option Str
deriving DecidableEq, Repr

/-- The per-order enrichment of the order-list tab: look the normalized
design code up and attach karigar / generic name when found. -/
def enrichOrder (mappingLookup : MappingLookup) (order : ParsedOrder) :
    EnrichedOrder :=
  let normalizedDesign := normalizeDesignCode order.design
  let mapping := jsMapGet mappingLookup normalizedDesign
  { orderNo := order.orderNo, design := order.design, weight := order.weight,
    size := order.size, quantity := order.quantity, remarks := order.remarks,
    genericName := mapping.bind (fun m => m.genericName),
    karigar := mapping.map (fun m => m.karigar) }

/-- `enrichedOrders` from the order-list tab. -/
def enrichedOrders (mappingLookup : MappingLookup) (orders : List ParsedOrder) :
    List EnrichedOrder :=
  orders.map (enrichOrder mappingLookup)

example : looksLikeNumericRatio "3+1".toList = true := by decide
example : looksLikeNumericRatio "Ring".toList = false := by decide
example :
    getMappingSheetReadOrder ["Sheet9".toList, "2".toList, "Alpha".toList, "1".toList] =
      ["1".toList, "2".toList, "Alpha".toList, "Sheet9".toList] := by decide

/-! ## Shape predicates used to characterize normalized strings -/

/-- A character that every `normalizeCellValue` step leaves alone: not
zero-width, not an invisible control, and a fixed point of the
NBSP/dash/quote folding. -/
def goodChar (c : Char) : Bool :=
  !isZeroWidth c && !isInvisibleControl c && (mapSpecialChar c == c)

/-- Whitespace shape after collapsing: every whitespace character is a
single ASCII space and no two are adjacent.  The flag records whether the
previous character was whitespace (`true` also forbids a leading space). -/
def wellSpacedAux : Bool → Str → Bool
  | _, [] => true
  | prevWs, c :: rest =>
    if isJsWhitespace c then !prevWs && (c == ' ') && wellSpacedAux true rest
    else wellSpacedAux false rest

/-- The last character, if any, is not whitespace. -/
def lastNotWs (l : Str) : Bool :=
  match l.getLast? with
  | none => true
  | some c => !isJsWhitespace c

/-- The canonical-form invariant satisfied by every output of
`normalizeCellValue`: clean characters, single interior spaces, trimmed. -/
def canonicalStr (l : Str) : Prop :=
  (∀ c ∈ l, goodChar c = true) ∧ wellSpacedAux true l = true ∧ lastNotWs l = true

/-! # Claim theorems and their supporting lemmas -/

/-! ### C1 — design-code join key -/

/-- C1: `normalizeDesignCode` applies `normalizeCellValue` and lowercases,
preserving punctuation: `"AB-12"` and `"ab-12"` produce identical keys, the
order with design `"ab-12"` enriches with the mapping entry stored for
design `"AB-12"`, and `"AB-12"` and `"AB 12"` produce different keys. -/
theorem design_code_join_key_c1 :
    normalizeDesignCode "AB-12".toList = normalizeDesignCode "ab-12".toList ∧
    normalizeDesignCode "AB-12".toList = "ab-12".toList ∧
    normalizeDesignCode "AB-12".toList ≠ normalizeDesignCode "AB 12".toList ∧
    (let mappingData := decodeBlobToMapping
        [("1".toList, some [{ design := some "AB-12".toList,
                              karigar := some "K1".toList,
                              genericName := some "Ring".toList }])]
     let lookup := buildMappingLookup mappingData
     let order : ParsedOrder :=
       { orderNo := "101".toList, design := "ab-12".toList, weight := [],
         size := [], quantity := [], remarks := [] }
     (enrichOrder lookup order).karigar = some "K1".toList ∧
     (enrichOrder lookup order).genericName = some "Ring".toList) := by
  decide

/-! ### C9 — Design alias configuration of the order parser -/

/-- C9 counterexample: the order parser's Design alias configuration does
not contain `product`, `code` or `style`, and such header cells are not
resolved to the Design column, contrary to the claimed alias list. -/
theorem design_alias_gap_c9 :
    matchesHeaderAlias "product".toList COLUMN_ALIASES_design = false ∧
    matchesHeaderAlias "code".toList COLUMN_ALIASES_design = false ∧
    matchesHeaderAlias "style".toList COLUMN_ALIASES_design = false ∧
    findColumnIndex ["product".toList, "code".toList, "style".toList]
      COLUMN_ALIASES_design = none := by
  decide

/-- C9 amended: in order parsing the Design alias configuration is exactly
`design, design code, designcode, design no, design no., item, item code`
(without `product`, `code`, `style`, which appear only in the mapping
parser's alias list), and a header cell equal to any configured alias is
resolved to the Design logical column by the column matcher. -/
theorem design_alias_matching_c9 :
    COLUMN_ALIASES_design =
      ["design".toList, "design code".toList, "designcode".toList,
       "design no".toList, "design no.".toList, "item".toList, "item code".toList] ∧
    COLUMN_ALIASES_design.all
      (fun a => matchesHeaderAlias a COLUMN_ALIASES_design) = true ∧
    COLUMN_ALIASES_design.all
      (fun a => findColumnIndex [a] COLUMN_ALIASES_design == some 0) = true ∧
    ("product".toList ∈ mappingDesignAliases ∧ "code".toList ∈ mappingDesignAliases ∧
     "style".toList ∈ mappingDesignAliases) := by
  decide

/-! ### C4 — persisted blobs never trust the stored normalized key -/

/-- C4: after decoding a persisted mapping blob, every entry's
`designNormalized` equals `normalizeDesignCode` of its stored raw `design`
field, and the decode result is unchanged if the stored `designNormalized`
fields are rewritten arbitrarily — stored normalized keys are never
trusted over recomputation. -/
theorem blob_normalized_recomputed_c4 :
    (∀ (data : List (Str × Option (List RawBlobEntry)))
       (sheet : Str × List DecodedEntry) (e : DecodedEntry),
       sheet ∈ decodeBlobToMapping data → e ∈ sheet.2 →
       e.designNormalized = normalizeDesignCode e.design) ∧
    (∀ (data : List (Str × Option (List RawBlobEntry))) (f : RawBlobEntry → Option Str),
       decodeBlobToMapping (data.map (fun p =>
         (p.1, p.2.map (fun es => es.map (fun e => { e with designNormalized := f e }))))) =
       decodeBlobToMapping data) := by
  constructor
  · intro data sheet e hsheet he
    unfold decodeBlobToMapping at hsheet
    rw [List.mem_filterMap] at hsheet
    obtain ⟨p, _, hmatch⟩ := hsheet
    rcases h2 : p.2 with _ | entries
    · rw [h2] at hmatch; cases hmatch
    · rw [h2] at hmatch
      cases hmatch
      rcases List.mem_map.mp he with ⟨raw, _, rfl⟩
      rfl
  · intro data f
    unfold decodeBlobToMapping
    rw [List.filterMap_map]
    apply List.filterMap_congr
    intro p _
    rcases hp2 : p.2 with _ | entries
    · simp [Function.comp, hp2]
    · simp only [Function.comp, hp2]
      show some (p.1, List.map decodeEntry (List.map _ entries)) =
        some (p.1, List.map decodeEntry entries)
      rw [List.map_map]
      exact congrArg (fun l => some (p.1, l)) (List.map_congr_left fun e _ => rfl)

/-- C4 witness: a blob entry stored with a wrong `designNormalized` decodes
to the recomputed key. -/
theorem blob_normalized_recomputed_c4_witness :
    (("1".toList,
      [{ design := "AB-12".toList, designNormalized := "ab-12".toList,
         karigar := "K1".toList, genericName := none : DecodedEntry }]) ∈
        decodeBlobToMapping
          [("1".toList, some [{ design := some "AB-12".toList,
                                designNormalized := some "WRONG".toList,
                                karigar := some "K1".toList }])]) ∧
    ({ design := "AB-12".toList, designNormalized := "ab-12".toList,
       karigar := "K1".toList, genericName := none : DecodedEntry }).designNormalized =
      normalizeDesignCode "AB-12".toList := by
  refine ⟨by decide, ?_⟩
  have h := blob_normalized_recomputed_c4.1
    [("1".toList, some [{ design := some "AB-12".toList,
                          designNormalized := some "WRONG".toList,
                          karigar := some "K1".toList }])]
    ("1".toList,
      [{ design := "AB-12".toList, designNormalized := "ab-12".toList,
         karigar := "K1".toList, genericName := none : DecodedEntry }])
    { design := "AB-12".toList, designNormalized := "ab-12".toList,
      karigar := "K1".toList, genericName := none : DecodedEntry }
    (by decide) (by decide)
  exact h

/-! ### JS `Map` lemmas shared by several claims -/

theorem find?_map_set {α : Type} (k : Str) (v : α) :
    ∀ m : List (Str × α), m.any (fun p => p.1 == k) = true →
      jsMapGet (m.map (fun p => if p.1 == k then (k, v) else p)) k = some v := by
  intro m
  induction m with
  | nil => intro h; cases h
  | cons p rest ih =>
    intro h
    by_cases hpk : (p.1 == k) = true
    · rw [List.map_cons, if_pos hpk]
      unfold jsMapGet
      rw [List.find?_cons_of_pos _ (by simp)]
      rfl
    · have hrest : rest.any (fun p => p.1 == k) = true := by
        rcases (List.any_eq_true.mp h) with ⟨q, hq, hqk⟩
        rcases List.mem_cons.mp hq with rfl | hq2
        · exact absurd hqk hpk
        · exact List.any_eq_true.mpr ⟨q, hq2, hqk⟩
      rw [List.map_cons, if_neg hpk]
      unfold jsMapGet
      rw [List.find?_cons_of_neg _ (by simpa using hpk)]
      exact ih hrest

theorem jsMapGet_set_self {α : Type} (m : List (Str × α)) (k : Str) (v : α) :
    jsMapGet (jsMapSet m k v) k = some v := by
  unfold jsMapSet
  by_cases h : jsMapHas m k
  · rw [if_pos h]
    exact find?_map_set k v m h
  · rw [if_neg h]
    unfold jsMapGet
    have hnone : m.find? (fun p => p.1 == k) = none := by
      rw [List.find?_eq_none]
      intro x hx hxk
      exact h (List.any_eq_true.mpr ⟨x, hx, hxk⟩)
    rw [List.find?_append, hnone]
    simp [List.find?]

theorem mem_jsMapSet {α : Type} {q : Str × α} {m : List (Str × α)} {k : Str} {v : α}
    (h : q ∈ jsMapSet m k v) : q ∈ m ∨ q = (k, v) := by
  unfold jsMapSet at h
  by_cases hhas : jsMapHas m k
  · rw [if_pos hhas] at h
    rcases List.mem_map.mp h with ⟨p, hp, hq⟩
    by_cases hpk : p.1 == k
    · rw [if_pos hpk] at hq; right; exact hq.symm
    · rw [if_neg hpk] at hq; left; exact hq ▸ hp
  · rw [if_neg hhas] at h
    rcases List.mem_append.mp h with h1 | h1
    · left; exact h1
    · right; simpa using h1

theorem jsMapHas_append_left {α : Type} {m : List (Str × α)} (rest : List (Str × α))
    {key : Str} (h : jsMapHas m key = true) : jsMapHas (m ++ rest) key = true := by
  unfold jsMapHas at *
  rw [List.any_append, h, Bool.true_or]

theorem jsMapGet_append_left {α : Type} {m : List (Str × α)} (rest : List (Str × α))
    {key : Str} (h : jsMapHas m key = true) : jsMapGet (m ++ rest) key = jsMapGet m key := by
  unfold jsMapGet jsMapHas at *
  rcases List.any_eq_true.mp h with ⟨q, hq, hqk⟩
  have hsome : (m.find? (fun p => p.1 == key)).isSome = true :=
    List.find?_isSome.mpr ⟨q, hq, hqk⟩
  rcases hfind : m.find? (fun p => p.1 == key) with _ | w
  · rw [hfind] at hsome; cases hsome
  · rw [List.find?_append, hfind]; rfl

/-- Later sheets never change a key that is already present: the
lookup-builder's per-sheet fold skips keys it already has. -/
theorem addSheetEntries_preserves :
    ∀ (entries : List DecodedEntry) (lookup : MappingLookup) (key : Str),
      jsMapHas lookup key = true →
      jsMapGet (addSheetEntries lookup entries) key = jsMapGet lookup key := by
  intro entries
  induction entries with
  | nil => intro lookup key _; rfl
  | cons e es ih =>
    intro lookup key hhas
    show jsMapGet (addSheetEntries (if (normalizeDesignCode e.design).isEmpty then lookup
      else if jsMapHas lookup (normalizeDesignCode e.design) then lookup
      else lookup ++ [(normalizeDesignCode e.design,
        { karigar := e.karigar, genericName := e.genericName })]) es) key = jsMapGet lookup key
    by_cases h1 : (normalizeDesignCode e.design).isEmpty
    · rw [if_pos h1]; exact ih lookup key hhas
    · rw [if_neg h1]
      by_cases h2 : jsMapHas lookup (normalizeDesignCode e.design)
      · rw [if_pos h2]; exact ih lookup key hhas
      · rw [if_neg h2]
        rw [ih _ key (jsMapHas_append_left _ hhas)]
        exact jsMapGet_append_left _ hhas

/-- Every pair in a processed sheet map was produced by some data row. -/
theorem mem_processMappingRows (d k n : Nat) :
    ∀ (rows : Grid) (m : EntryMap) (q : Str × KarigarMappingEntry),
      q ∈ rows.foldl (fun m row =>
        match mappingRowEntry d k n row with
        | none => m
        | some (key, e) => jsMapSet m key e) m →
      q ∈ m ∨ ∃ row ∈ rows, mappingRowEntry d k n row = some q := by
  intro rows
  induction rows with
  | nil => intro m q hq; exact Or.inl hq
  | cons r rs ih =>
    intro m q hq
    rw [List.foldl_cons] at hq
    rcases ih _ q hq with hmem | ⟨row, hrow, hentry⟩
    · rcases hre : mappingRowEntry d k n r with _ | ⟨key, e⟩
      · simp only [hre] at hmem; exact Or.inl hmem
      · simp only [hre] at hmem
        rcases mem_jsMapSet hmem with h1 | h1
        · exact Or.inl h1
        · exact Or.inr ⟨r, List.mem_cons_self r rs, by rw [hre, h1]⟩
    · exact Or.inr ⟨row, List.mem_cons_of_mem _ hrow, hentry⟩

/-- The produced generic name is either empty (the row is then skipped) or
a non-empty string that is not a numeric ratio. -/
theorem mappingGenericName_spec (n : Nat) (row : GridRow) :
    mappingGenericName n row = [] ∨
      (looksLikeNumericRatio (mappingGenericName n row) = false ∧
       mappingGenericName n row ≠ []) := by
  simp only [mappingGenericName]
  by_cases hp : (!(if n < row.length then
      normalizeCellValue (row.getD n []) else []).isEmpty &&
      !looksLikeNumericRatio (if n < row.length then
        normalizeCellValue (row.getD n []) else [])) = true
  · rw [if_pos hp]
    rw [Bool.and_eq_true] at hp
    rcases hp with ⟨h1, h2⟩
    right
    refine ⟨by simpa using h2, ?_⟩
    intro hnil
    rw [hnil] at h1
    simp at h1
  · rw [if_neg hp]
    exact Or.inl rfl

/-- A produced mapping entry always carries a non-empty generic name that
does not look like a numeric ratio. -/
theorem mappingRowEntry_genericName {d k n : Nat} {row : GridRow} {key : Str}
    {e : KarigarMappingEntry} (h : mappingRowEntry d k n row = some (key, e)) :
    looksLikeNumericRatio e.genericName = false ∧ e.genericName ≠ [] := by
  simp only [mappingRowEntry] at h
  split at h
  · cases h
  · split at h
    · cases h
    · split at h
      · cases h
      · split at h
        · cases h
        · rename_i hrow hempty hinc hdn
          cases h
          have hne : mappingGenericName n row ≠ [] := by
            intro hnil
            exact hempty (by rw [hnil]; simp)
          rcases mappingGenericName_spec n row with h0 | ⟨hr, hn2⟩
          · exact absurd h0 hne
          · exact ⟨hr, hn2⟩

/-- The spec lemma for `findIdx?`: a found index points at an element
satisfying the predicate. -/
theorem findIdx?_found {α : Type} (p : α → Bool) :
    ∀ (l : List α) (i j : Nat), List.findIdx? p l i = some j →
      ∃ a, l.get? (j - i) = some a ∧ p a = true ∧ i ≤ j := by
  intro l
  induction l with
  | nil => intro i j h; cases h
  | cons x xs ih =>
    intro i j h
    rw [List.findIdx?_cons] at h
    by_cases hx : p x = true
    · rw [if_pos hx] at h
      cases h
      exact ⟨x, by simp, hx, Nat.le_refl _⟩
    · rw [if_neg hx] at h
      rcases ih (i + 1) j h with ⟨a, hget, hpa, hij⟩
      refine ⟨a, ?_, hpa, by omega⟩
      have hji : j - i = (j - (i + 1)) + 1 := by omega
      rw [hji, List.get?_cons_succ]
      exact hget

/-! ### C10 — last-writer-wins within a sheet, first-wins across sheets -/

/-- C10: within a single mapping sheet, when several valid data rows
normalize to the same design key, the entry from the last such row
overwrites the earlier ones (`Map.set` is unconditional), while the
cross-sheet merge of the lookup builder goes the opposite way: a key
already present in the lookup is never replaced by a later sheet. -/
theorem sheet_last_writer_wins_c10 :
    (∀ (d k n : Nat) (rows : Grid) (row : GridRow) (key : Str)
       (e : KarigarMappingEntry),
       mappingRowEntry d k n row = some (key, e) →
       jsMapGet (processMappingRows d k n (rows ++ [row])) key = some e) ∧
    (∀ (entries : List DecodedEntry) (lookup : MappingLookup) (key : Str),
       jsMapHas lookup key = true →
       jsMapGet (addSheetEntries lookup entries) key = jsMapGet lookup key) := by
  constructor
  · intro d k n rows row key e he
    simp only [processMappingRows, List.foldl_concat]
    rw [he]
    exact jsMapGet_set_self _ _ _
  · exact addSheetEntries_preserves

/-- C10 witness: with two data rows whose designs normalize to the key
`ab-12`, the second row's entry is the one stored for that key. -/
theorem sheet_last_writer_wins_c10_witness :
    jsMapGet (processMappingRows 0 2 1
        [["AB-12".toList, "Ring".toList, "K1".toList],
         ["ab-12".toList, "Band".toList, "K2".toList]]) "ab-12".toList =
      some { design := "ab-12".toList, designNormalized := "ab-12".toList,
             karigar := "K2".toList, genericName := "Band".toList } := by
  exact sheet_last_writer_wins_c10.1 0 2 1
    [["AB-12".toList, "Ring".toList, "K1".toList]]
    ["ab-12".toList, "Band".toList, "K2".toList]
    "ab-12".toList
    { design := "ab-12".toList, designNormalized := "ab-12".toList,
      karigar := "K2".toList, genericName := "Band".toList }
    (by decide)

/-! ### C8 — numeric-ratio guard -/

/-- C8: a cell whose text matches the bare-numeric-ratio pattern
(for example `3+1`) is never treated as a generic name: the header detector
never selects such a cell as the Generic-Name column, and no stored entry's
`genericName` ever matches the pattern (nor is it empty). -/
theorem numeric_ratio_guard_c8 :
    looksLikeNumericRatio "3+1".toList = true ∧
    (∀ (row : GridRow) (d k n : Nat), checkMappingHeaderRow row = some (d, k, n) →
      looksLikeNumericRatio (row.getD n []) = false) ∧
    (∀ (d k n : Nat) (rows : Grid) (key : Str) (e : KarigarMappingEntry),
      jsMapGet (processMappingRows d k n rows) key = some e →
      looksLikeNumericRatio e.genericName = false ∧ e.genericName ≠ []) := by
  refine ⟨by decide, ?_, ?_⟩
  · intro row d k n h
    unfold checkMappingHeaderRow at h
    split at h
    · cases h
    · rcases hd : List.findIdx? (fun cell => matchesHeaderAlias cell mappingDesignAliases) row 0
        with _ | d'
      all_goals rw [hd] at h
      · cases h
      rcases hk : List.findIdx? (fun cell => matchesHeaderAlias cell mappingKarigarAliases) row 0
        with _ | k'
      all_goals rw [hk] at h
      · cases h
      rcases hn : List.findIdx? (fun cell =>
          matchesHeaderAlias cell mappingNameAliases && !looksLikeNumericRatio cell) row 0
        with _ | n'
      all_goals rw [hn] at h
      · cases h
      cases h
      rcases findIdx?_found _ row 0 n hn with ⟨cell, hget, hpred, _⟩
      have hget2 : row.get? n = some cell := by simpa using hget
      rw [Bool.and_eq_true] at hpred
      rcases hpred with ⟨_, hratio⟩
      rw [List.getD_eq_get?, hget2]
      simpa using hratio
  · intro d k n rows key e hget
    unfold jsMapGet at hget
    rcases hfind : List.find? (fun p => p.1 == key) (processMappingRows d k n rows)
      with _ | w
    · rw [hfind] at hget; cases hget
    · rw [hfind] at hget
      have he2 : w.2 = e := by simpa using hget
      have hmem : w ∈ processMappingRows d k n rows := List.mem_of_find?_eq_some hfind
      rcases mem_processMappingRows d k n rows [] w hmem with hnil | ⟨row, _, hentry⟩
      · cases hnil
      · rw [← he2]
        exact @mappingRowEntry_genericName d k n row w.1 w.2 (by rw [hentry])

/-- C8 witness: the guard evaluated through the header detector and through
a concrete parsed sheet entry. -/
theorem numeric_ratio_guard_c8_witness :
    looksLikeNumericRatio
      (["Design".toList, "Name".toList, "Karigar".toList].getD 1 []) = false ∧
    looksLikeNumericRatio
      ({ design := "AB-12".toList, designNormalized := "ab-12".toList,
         karigar := "K1".toList,
         genericName := "Ring".toList : KarigarMappingEntry }).genericName = false := by
  constructor
  · exact numeric_ratio_guard_c8.2.1
      ["Design".toList, "Name".toList, "Karigar".toList] 0 2 1 (by decide)
  · exact (numeric_ratio_guard_c8.2.2 0 2 1
      [["AB-12".toList, "Ring".toList, "K1".toList]] "ab-12".toList
      { design := "AB-12".toList, designNormalized := "ab-12".toList,
        karigar := "K1".toList, genericName := "Ring".toList }
      (by decide)).1

/-! ### C2 — sheet read order and first-wins merge -/

theorem lexLe_total : ∀ a b : Str, lexLe a b = true ∨ lexLe b a = true
  | [], _ => Or.inl rfl
  | _ :: _, [] => Or.inr rfl
  | c :: cs, d :: ds => by
    unfold lexLe
    rcases Nat.lt_trichotomy c.toNat d.toNat with h | h | h
    · left
      rw [if_pos h]
    · rw [h]
      simp only [Nat.lt_irrefl, if_false]
      exact lexLe_total cs ds
    · right
      rw [if_pos h]

theorem lexLe_trans : ∀ a b c : Str,
    lexLe a b = true → lexLe b c = true → lexLe a c = true
  | [], _, _, _, _ => rfl
  | _ :: _, [], _, h1, _ => by simp [lexLe] at h1
  | _ :: _, _ :: _, [], _, h2 => by simp [lexLe] at h2
  | x :: xs, y :: ys, z :: zs, h1, h2 => by
    unfold lexLe at h1 h2 ⊢
    by_cases hxy : x.toNat < y.toNat
    · by_cases hyz : y.toNat < z.toNat
      · rw [if_pos (by omega)]
      · rw [if_neg hyz] at h2
        by_cases hzy : z.toNat < y.toNat
        · rw [if_pos hzy] at h2; cases h2
        · rw [if_pos (by omega)]
    · rw [if_neg hxy] at h1
      by_cases hyx : y.toNat < x.toNat
      · rw [if_pos hyx] at h1; cases h1
      · rw [if_neg hyx] at h1
        by_cases hyz : y.toNat < z.toNat
        · rw [if_pos (by omega)]
        · rw [if_neg hyz] at h2
          by_cases hzy : z.toNat < y.toNat
          · rw [if_pos hzy] at h2; cases h2
          · rw [if_neg hzy] at h2
            rw [if_neg (by omega), if_neg (by omega)]
            exact lexLe_trans xs ys zs h1 h2

instance : IsTotal Str lexLeR := ⟨fun a b => lexLe_total a b⟩

instance : IsTrans Str lexLeR := ⟨fun a b c => lexLe_trans a b c⟩

theorem foldl_push_if (p : Str → Bool) :
    ∀ (l acc : List Str),
      l.foldl (fun acc s => if p s then acc ++ [s] else acc) acc =
        acc ++ l.filter p := by
  intro l
  induction l with
  | nil => intro acc; simp
  | cons x xs ih =>
    intro acc
    rw [List.foldl_cons, List.filter_cons]
    by_cases hx : p x = true
    · rw [if_pos hx, if_pos hx, ih, List.append_assoc]
      rfl
    · rw [if_neg hx, if_neg hx, ih]

theorem foldl_skip_if (p : Str → Bool) :
    ∀ (l acc : List Str),
      l.foldl (fun acc s => if p s then acc else acc ++ [s]) acc =
        acc ++ l.filter (fun s => !p s) := by
  intro l
  induction l with
  | nil => intro acc; simp
  | cons x xs ih =>
    intro acc
    rw [List.foldl_cons, List.filter_cons]
    by_cases hx : p x = true
    · rw [if_pos hx]
      rw [show (!p x) = false by rw [hx]; rfl]
      show _ = acc ++ List.filter _ xs
      rw [ih]
    · rw [if_neg hx]
      rw [show (!p x) = true by rw [Bool.eq_false_iff.mpr hx]; rfl]
      show _ = acc ++ x :: List.filter _ xs
      rw [ih, List.append_assoc]
      rfl

/-- C2: the lookup builder walks sheets in the order `"1", "3", "2"` (those
that exist, in that order) followed by the remaining names sorted; a key is
inserted only when not already present, so earlier (higher-priority) sheets
win: with sheet `"2"` mapping key X to karigar `Foo` and sheet `"1"` mapping
X to `Bar`, the lookup resolves X to `Bar`. -/
theorem sheet_read_order_first_wins_c2 :
    (∀ availableSheetNames : List Str,
      getMappingSheetReadOrder availableSheetNames =
        prioritySheets.filter (fun p => availableSheetNames.contains p) ++
          sortSheetNames
            (availableSheetNames.filter (fun s => !prioritySheets.contains s)) ∧
      List.Sorted lexLeR
        (sortSheetNames
          (availableSheetNames.filter (fun s => !prioritySheets.contains s))) ∧
      (sortSheetNames
        (availableSheetNames.filter (fun s => !prioritySheets.contains s))).Perm
        (availableSheetNames.filter (fun s => !prioritySheets.contains s))) ∧
    (∀ (entries : List DecodedEntry) (lookup : MappingLookup) (key : Str),
      jsMapHas lookup key = true →
      jsMapGet (addSheetEntries lookup entries) key = jsMapGet lookup key) ∧
    ((jsMapGet
        (buildMappingLookup
          [("2".toList, [{ design := "X1".toList, designNormalized := "x1".toList,
                           karigar := "Foo".toList, genericName := none }]),
           ("1".toList, [{ design := "X1".toList, designNormalized := "x1".toList,
                           karigar := "Bar".toList, genericName := none }])])
        "x1".toList).map (fun i => i.karigar) = some "Bar".toList) := by
  refine ⟨?_, addSheetEntries_preserves, by decide⟩
  intro availableSheetNames
  refine ⟨?_, List.sorted_insertionSort lexLeR _, List.perm_insertionSort lexLeR _⟩
  unfold getMappingSheetReadOrder
  rw [foldl_push_if, foldl_skip_if]
  simp only [List.nil_append]

/-- C2 witness: first-wins evaluated at a lookup that already contains the
key. -/
theorem sheet_read_order_first_wins_c2_witness :
    jsMapGet (addSheetEntries
        [("x1".toList, { karigar := "Bar".toList, genericName := none })]
        [{ design := "X1".toList, designNormalized := "x1".toList,
           karigar := "Foo".toList, genericName := none }]) "x1".toList =
      jsMapGet [("x1".toList,
        { karigar := "Bar".toList, genericName := none : LookupInfo })] "x1".toList := by
  exact sheet_read_order_first_wins_c2.2.1
    [{ design := "X1".toList, designNormalized := "x1".toList,
       karigar := "Foo".toList, genericName := none }]
    [("x1".toList, { karigar := "Bar".toList, genericName := none })]
    "x1".toList (by decide)

/-! ### C3 — workbook-level failure policy of mapping parsing -/

theorem append_ne_nil_left {a : Str} (b : Str) (h : a ≠ []) : a ++ b ≠ [] :=
  fun hc => h (List.append_eq_nil.mp hc).1

/-- Every sheet attempt yields either zero entries with a non-empty error
message, or at least one entry and no error; the sheet name is preserved. -/
theorem tryParseSheetGrid_cases (s : Str) (g : Grid) :
    (tryParseSheetGrid s g).sheetName = s ∧
    (((tryParseSheetGrid s g).entries = [] ∧
      ∃ m, (tryParseSheetGrid s g).error = some m ∧ m ≠ []) ∨
     ((tryParseSheetGrid s g).entries ≠ [] ∧ (tryParseSheetGrid s g).error = none)) := by
  unfold tryParseSheetGrid
  split
  · exact ⟨rfl, Or.inl ⟨rfl, ⟨_, rfl,
      append_ne_nil_left _ (append_ne_nil_left _ (by decide))⟩⟩⟩
  · split
    · exact ⟨rfl, Or.inl ⟨rfl, ⟨_, rfl, by
        unfold sheetMissingColumnsMessage
        exact append_ne_nil_left _ (append_ne_nil_left _ (append_ne_nil_left _
          (append_ne_nil_left _ (append_ne_nil_left _ (by decide)))))⟩⟩⟩
    · split
      · exact ⟨rfl, Or.inl ⟨rfl, ⟨_, rfl,
          append_ne_nil_left _ (append_ne_nil_left _ (by decide))⟩⟩⟩
      · rename_i hne
        exact ⟨rfl, Or.inr ⟨hne, rfl⟩⟩

theorem filterMap_length_of_isSome {α β : Type} (f : α → Option β) :
    ∀ l : List α, (∀ a ∈ l, (f a).isSome = true) → (l.filterMap f).length = l.length := by
  intro l
  induction l with
  | nil => intro _; rfl
  | cons x xs ih =>
    intro h
    rcases hx : f x with _ | b
    · have := h x (List.mem_cons_self x xs)
      rw [hx] at this; cases this
    · rw [List.filterMap_cons, hx, List.length_cons, List.length_cons,
        ih (fun a ha => h a (List.mem_cons_of_mem _ ha))]

theorem joinSep_ne_nil (sep m : Str) (rest : List Str) (hm : m ≠ []) :
    joinSep sep (m :: rest) ≠ [] := by
  cases rest with
  | nil => exact hm
  | cons y ys =>
    show m ++ sep ++ joinSep sep (y :: ys) ≠ []
    exact append_ne_nil_left _ (append_ne_nil_left _ hm)

/-- The kept-sheets list is empty exactly when no sheet yields entries. -/
theorem mapping_result_empty_iff (workbook : List (Str × Grid)) :
    ((workbook.map (fun p => tryParseSheetGrid p.1 p.2)).filterMap
      (fun t => if t.entries ≠ [] then some (t.sheetName, t.entries) else none)) = [] ↔
    ∀ p ∈ workbook, (tryParseSheetGrid p.1 p.2).entries = [] := by
  rw [List.filterMap_eq_nil]
  constructor
  · intro h p hp
    have hnone := h _ (List.mem_map_of_mem _ hp)
    by_cases he : (tryParseSheetGrid p.1 p.2).entries = []
    · exact he
    · rw [if_pos he] at hnone; cases hnone
  · intro h t ht
    rcases List.mem_map.mp ht with ⟨p, hp, rfl⟩
    rw [if_neg (fun hne => hne (h p hp))]

/-- C3: mapping-workbook parsing attempts every sheet; it succeeds exactly
when some sheet yields at least one entry, in which case the result keeps
exactly the sheets with entries; it rejects exactly when zero sheets yield
entries, with an error that joins every failed sheet's individual error
(one error per sheet of the workbook). -/
theorem mapping_workbook_policy_c3 :
    ∀ workbook : List (Str × Grid),
      ((∃ r, parseExcelMappingGrids workbook = Except.ok r) ↔
        ∃ p ∈ workbook, (tryParseSheetGrid p.1 p.2).entries ≠ []) ∧
      (∀ r, parseExcelMappingGrids workbook = Except.ok r →
        r = (workbook.map (fun p => tryParseSheetGrid p.1 p.2)).filterMap
              (fun t => if t.entries ≠ [] then some (t.sheetName, t.entries) else none)) ∧
      (workbook ≠ [] →
        (∀ p ∈ workbook, (tryParseSheetGrid p.1 p.2).entries = []) →
        parseExcelMappingGrids workbook =
          Except.error (joinSep "\n\n".toList
            ((workbook.map (fun p => tryParseSheetGrid p.1 p.2)).filterMap
              (fun t => t.error))) ∧
        ((workbook.map (fun p => tryParseSheetGrid p.1 p.2)).filterMap
            (fun t => t.error)).length = workbook.length) := by
  intro workbook
  by_cases hemp : workbook = []
  · subst hemp
    refine ⟨?_, ?_, fun h => absurd rfl h⟩
    · constructor
      · intro ⟨r, hr⟩
        rw [show parseExcelMappingGrids [] = Except.error noSheetsMessage from rfl] at hr
        cases hr
      · intro ⟨p, hp, _⟩
        cases hp
    · intro r hr
      rw [show parseExcelMappingGrids [] = Except.error noSheetsMessage from rfl] at hr
      cases hr
  · have hparse : parseExcelMappingGrids workbook =
        (if ((workbook.map (fun p => tryParseSheetGrid p.1 p.2)).filterMap
              (fun t => if t.entries ≠ [] then some (t.sheetName, t.entries) else none)) = []
         then
           Except.error
             (if joinSep "\n\n".toList
                  ((workbook.map (fun p => tryParseSheetGrid p.1 p.2)).filterMap
                    (fun t => t.error)) = []
              then noValidSheetsFallback
              else joinSep "\n\n".toList
                ((workbook.map (fun p => tryParseSheetGrid p.1 p.2)).filterMap
                  (fun t => t.error)))
         else Except.ok
           ((workbook.map (fun p => tryParseSheetGrid p.1 p.2)).filterMap
             (fun t => if t.entries ≠ [] then some (t.sheetName, t.entries) else none))) := by
      unfold parseExcelMappingGrids
      rw [if_neg hemp]
    by_cases hres : ((workbook.map (fun p => tryParseSheetGrid p.1 p.2)).filterMap
        (fun t => if t.entries ≠ [] then some (t.sheetName, t.entries) else none)) = []
    · have hall : ∀ p ∈ workbook, (tryParseSheetGrid p.1 p.2).entries = [] :=
        (mapping_result_empty_iff workbook).mp hres
      have herrsome : ∀ t ∈ workbook.map (fun p => tryParseSheetGrid p.1 p.2),
          (t.error).isSome = true := by
        intro t ht
        rcases List.mem_map.mp ht with ⟨p, hp, rfl⟩
        rcases (tryParseSheetGrid_cases p.1 p.2).2 with ⟨_, m, hm, _⟩ | ⟨hne, _⟩
        · rw [hm]; rfl
        · exact absurd (hall p hp) hne
      have hlen : ((workbook.map (fun p => tryParseSheetGrid p.1 p.2)).filterMap
          (fun t => t.error)).length = workbook.length := by
        rw [filterMap_length_of_isSome _ _ herrsome, List.length_map]
      have herrne : joinSep "\n\n".toList
          ((workbook.map (fun p => tryParseSheetGrid p.1 p.2)).filterMap
            (fun t => t.error)) ≠ [] := by
        rcases hwb : workbook with _ | ⟨q, wb'⟩
        · exact absurd hwb hemp
        · rcases (tryParseSheetGrid_cases q.1 q.2).2 with ⟨_, m, hm, hmne⟩ | ⟨hne, _⟩
          · rw [List.map_cons, List.filterMap_cons, hm]
            exact joinSep_ne_nil _ _ _ hmne
          · exact absurd (hall q (hwb ▸ List.mem_cons_self q wb')) hne
      rw [hres, if_pos rfl, if_neg herrne] at hparse
      refine ⟨?_, ?_, fun _ _ => ⟨hparse, hlen⟩⟩
      · constructor
        · intro ⟨r, hr⟩
          rw [hparse] at hr; cases hr
        · intro ⟨p, hp, hne⟩
          exact absurd (hall p hp) hne
      · intro r hr
        rw [hparse] at hr; cases hr
    · rw [if_neg hres] at hparse
      refine ⟨?_, ?_, ?_⟩
      · constructor
        · intro _
          have hnall : ¬ ∀ p ∈ workbook, (tryParseSheetGrid p.1 p.2).entries = [] :=
            fun hall => hres ((mapping_result_empty_iff workbook).mpr hall)
          push_neg at hnall
          exact hnall
        · intro _
          exact ⟨_, hparse⟩
      · intro r hr
        rw [hparse] at hr
        cases hr
        rfl
      · intro _ hall
        exact absurd ((mapping_result_empty_iff workbook).mpr hall) hres

/-- C3 witness: a workbook whose only sheet has no usable columns fails
with that sheet's error joined, and a two-sheet workbook with one good
sheet succeeds keeping exactly the good sheet. -/
theorem mapping_workbook_policy_c3_witness :
    parseExcelMappingGrids [("Sheet2".toList, [["Notes".toList]])] =
      Except.error (joinSep "\n\n".toList
        (([("Sheet2".toList, [["Notes".toList]])].map
            (fun p => tryParseSheetGrid p.1 p.2)).filterMap (fun t => t.error))) ∧
    (∀ r, parseExcelMappingGrids
        [("1".toList, [["Design".toList, "Name".toList, "Karigar".toList],
                       ["AB-12".toList, "Ring".toList, "K1".toList]]),
         ("Sheet2".toList, [["Notes".toList]])] = Except.ok r →
      r = ([("1".toList, [["Design".toList, "Name".toList, "Karigar".toList],
                          ["AB-12".toList, "Ring".toList, "K1".toList]]),
            ("Sheet2".toList, [["Notes".toList]])].map
              (fun p => tryParseSheetGrid p.1 p.2)).filterMap
            (fun t => if t.entries ≠ [] then some (t.sheetName, t.entries) else none)) := by
  constructor
  · exact ((mapping_workbook_policy_c3 [("Sheet2".toList, [["Notes".toList]])]).2.2
      (by decide) (by decide)).1
  · exact (mapping_workbook_policy_c3 _).2.1

/-! ### C6 — header-row detection and the NonFirstHeaderRow warning -/

/-- The score formula is bounded by `6 * 10 + 20 + 20`. -/
theorem scoreHeaderRow_le_100 (row : GridRow) : scoreHeaderRow row ≤ 100 := by
  simp only [scoreHeaderRow]
  split_ifs <;> omega

/-- The standard header row of the spec's example. -/
def standardHeaderRow : GridRow :=
  ["Sr No".toList, "Order No".toList, "Design".toList, "Weight".toList,
   "Size".toList, "Qty".toList, "Remarks".toList]

theorem scoreHeaderRow_standard : scoreHeaderRow standardHeaderRow = 100 := by
  decide

theorem detect_two_title_rows (r0 r1 dataRow : GridRow)
    (h0 : scoreHeaderRow r0 = 0) (h1 : scoreHeaderRow r1 = 0) :
    detectHeaderRow [r0, r1, standardHeaderRow, dataRow] = 2 := by
  have hd : scoreHeaderRow dataRow ≤ 100 := scoreHeaderRow_le_100 dataRow
  have htake : List.take 20 [r0, r1, standardHeaderRow, dataRow] =
      [r0, r1, standardHeaderRow, dataRow] := rfl
  unfold detectHeaderRow
  rw [htake]
  simp only [detectAux, h0, h1, scoreHeaderRow_standard]
  norm_num
  rw [if_neg (by omega : ¬ 100 < scoreHeaderRow dataRow)]
  decide

theorem mem_ite_nil_singleton {α : Type} (P : Prop) [Decidable P] (a w : α)
    (h : w ∈ (if P then ([] : List α) else [a])) : w = a := by
  by_cases hP : P
  · rw [if_pos hP] at h; cases h
  · rw [if_neg hP] at h
    exact List.mem_singleton.mp h

/-- C6: for a grid of two score-zero (blank/title) rows, the standard
header row, and one data row with a non-empty Order-No or Design cell, the
detector selects row index 2 and parsing succeeds with a
`NonFirstHeaderRow` warning whose 1-indexed `headerRowIndex` is 3; and
whenever the detected header row is row 0, no such warning is emitted. -/
theorem non_first_header_warning_c6 :
    (∀ r0 r1 dataRow : GridRow,
      scoreHeaderRow r0 = 0 → scoreHeaderRow r1 = 0 →
      ¬((extractCellValue (dataRow.getD 0 [])).isEmpty = true ∧
        (extractCellValue (dataRow.getD 2 [])).isEmpty = true) →
      detectHeaderRow [r0, r1, standardHeaderRow, dataRow] = 2 ∧
      ∃ res,
        parseDailyOrdersGrid [r0, r1, standardHeaderRow, dataRow] = Except.ok res ∧
        ({ type := WarningType.nonFirstHeader, headerRowIndex := some 3,
           message := nonFirstHeaderMessage 2 : ParseWarning }) ∈ res.warnings) ∧
    (∀ (rows : Grid) (res : ParseResult), detectHeaderRow rows = 0 →
      parseDailyOrdersGrid rows = Except.ok res →
      ∀ w ∈ res.warnings, w.type ≠ WarningType.nonFirstHeader) := by
  constructor
  · intro r0 r1 dataRow h0 h1 hvalid
    have hdet := detect_two_title_rows r0 r1 dataRow h0 h1
    refine ⟨hdet, ?_⟩
    have hOrd : findColumnIndex standardHeaderRow COLUMN_ALIASES_orderNo = some 0 := by decide
    have hDes : findColumnIndex standardHeaderRow COLUMN_ALIASES_design = some 2 := by decide
    have hWt : findColumnIndex standardHeaderRow COLUMN_ALIASES_weight = some 3 := by decide
    have hSz : findColumnIndex standardHeaderRow COLUMN_ALIASES_size = some 4 := by decide
    have hQt : findColumnIndex standardHeaderRow COLUMN_ALIASES_quantity = some 5 := by decide
    have hRm : findColumnIndex standardHeaderRow COLUMN_ALIASES_remarks = some 6 := by decide
    have hcond : ((extractCellValue (dataRow.getD 0 [])).isEmpty &&
        (extractCellValue (dataRow.getD 2 [])).isEmpty) = false :=
      Bool.eq_false_iff.mpr (fun hab => hvalid ((Bool.and_eq_true _ _) ▸ hab))
    refine ⟨{ orders := [{ orderNo := extractCellValue (dataRow.getD 0 []),
                           design := extractCellValue (dataRow.getD 2 []),
                           weight := extractCellValue (dataRow.getD 3 []),
                           size := extractCellValue (dataRow.getD 4 []),
                           quantity := extractCellValue (dataRow.getD 5 []),
                           remarks := extractCellValue (dataRow.getD 6 []) }],
              warnings := [{ type := WarningType.nonFirstHeader,
                             headerRowIndex := some 3,
                             message := nonFirstHeaderMessage 2 }] }, ?_, by simp⟩
    have hcond2 : (!(extractCellValue (dataRow[0]?.getD [])).isEmpty ||
        !(extractCellValue (dataRow[2]?.getD [])).isEmpty) = true := by
      have e0 : dataRow[0]?.getD [] = dataRow.getD 0 [] := by
        rw [List.getD_eq_getElem?_getD]
      have e2 : dataRow[2]?.getD [] = dataRow.getD 2 [] := by
        rw [List.getD_eq_getElem?_getD]
      rw [e0, e2]
      rcases ha : (extractCellValue (dataRow.getD 0 [])).isEmpty <;>
        rcases hb : (extractCellValue (dataRow.getD 2 [])).isEmpty <;>
        first
          | rfl
          | (rw [ha, hb] at hcond; cases hcond)
    have hvalid2 : ¬(extractCellValue (dataRow[0]?.getD []) = [] ∧
        extractCellValue (dataRow[2]?.getD []) = []) := by
      have e0 : dataRow[0]?.getD [] = dataRow.getD 0 [] := by
        rw [List.getD_eq_getElem?_getD]
      have e2 : dataRow[2]?.getD [] = dataRow.getD 2 [] := by
        rw [List.getD_eq_getElem?_getD]
      rw [e0, e2]
      simpa using hvalid
    simp [parseDailyOrdersGrid, hdet, hOrd, hDes, hWt, hSz, hQt, hRm, extractAt]
    rw [if_neg hvalid2]
    simp [hcond2]

  · intro rows res hdet hok
    simp only [parseDailyOrdersGrid] at hok
    split at hok
    · cases hok
    · split at hok
      · cases hok
      · split at hok
        · cases hok
        · cases hok
          intro w hw
          rw [hdet] at hw
          simp only [Nat.lt_irrefl, if_false, List.nil_append] at hw
          rcases mem_ite_nil_singleton _ _ _ hw with rfl
          intro hty
          cases hty

/-- C6 witness: a concrete grid with an empty row and a title row before
the standard header. -/
theorem non_first_header_warning_c6_witness :
    detectHeaderRow [[], ["Daily Orders".toList], standardHeaderRow,
      ["1".toList, "101".toList, "AB-12".toList, "5.2".toList, "M".toList,
       "2".toList, "ok".toList]] = 2 ∧
    ∃ res,
      parseDailyOrdersGrid [[], ["Daily Orders".toList], standardHeaderRow,
        ["1".toList, "101".toList, "AB-12".toList, "5.2".toList, "M".toList,
         "2".toList, "ok".toList]] = Except.ok res ∧
      ({ type := WarningType.nonFirstHeader, headerRowIndex := some 3,
         message := nonFirstHeaderMessage 2 : ParseWarning }) ∈ res.warnings :=
  non_first_header_warning_c6.1 [] ["Daily Orders".toList]
    ["1".toList, "101".toList, "AB-12".toList, "5.2".toList, "M".toList,
     "2".toList, "ok".toList]
    (by decide) (by decide) (by decide)

/-! ### C5 — missing critical columns -/

/-- The scan loop either keeps its accumulator or answers with the index
and score of some scanned row. -/
theorem detectAux_spec :
    ∀ (l : Grid) (i bIdx bScore : Nat),
      detectAux l i bIdx bScore = (bIdx, bScore) ∨
      ∃ j row, l.get? j = some row ∧
        detectAux l i bIdx bScore = (i + j, scoreHeaderRow row) := by
  intro l
  induction l with
  | nil => intro i bIdx bScore; exact Or.inl rfl
  | cons row rest ih =>
    intro i bIdx bScore
    have hstep : detectAux (row :: rest) i bIdx bScore =
        if bScore < scoreHeaderRow row then
          detectAux rest (i + 1) i (scoreHeaderRow row)
        else detectAux rest (i + 1) bIdx bScore := rfl
    rw [hstep]
    by_cases hlt : bScore < scoreHeaderRow row
    · rw [if_pos hlt]
      rcases ih (i + 1) i (scoreHeaderRow row) with heq | ⟨j, r2, hget, heq⟩
      · right
        exact ⟨0, row, rfl, by rw [heq]; simp⟩
      · right
        refine ⟨j + 1, r2, by simpa using hget, by rw [heq]; congr 1; omega⟩
    · rw [if_neg hlt]
      rcases ih (i + 1) bIdx bScore with heq | ⟨j, r2, hget, heq⟩
      · exact Or.inl heq
      · right
        refine ⟨j + 1, r2, by simpa using hget, by rw [heq]; congr 1; omega⟩

/-- The row the detector settles on is one of the scanned candidates. -/
theorem detectHeaderRow_mem (rows : Grid) (hne : rows ≠ []) :
    rows.getD (detectHeaderRow rows) [] ∈ rows.take 20 := by
  have hhead : rows.getD 0 [] ∈ rows.take 20 := by
    rcases rows with _ | ⟨r, rs⟩
    · exact absurd rfl hne
    · exact List.mem_cons_self r _
  unfold detectHeaderRow
  rcases detectAux_spec (rows.take 20) 0 0 0 with heq | ⟨j, row, hget, heq⟩
  · rw [heq]
    rw [if_neg (by omega : ¬ (20 ≤ (0, 0).2))]
    exact hhead
  · rw [heq]
    show rows.getD (if 20 ≤ scoreHeaderRow row then 0 + j else 0) [] ∈ rows.take 20
    by_cases h20 : 20 ≤ scoreHeaderRow row
    · rw [if_pos h20]
      have hj : j < (rows.take 20).length := by
        by_contra hge
        rw [List.get?_eq_none.mpr (by omega)] at hget
        cases hget
      rw [List.length_take] at hj
      have hget2 : rows.get? j = some row := by
        rw [← List.get?_take (show j < 20 by omega)]
        exact hget
      rw [Nat.zero_add, List.getD_eq_get?, hget2]
      exact List.get?_mem hget
    · rw [if_neg h20]
      exact hhead

/-- C5 counterexample: the empty grid has no scanned candidate row locating
the critical columns, and parsing does fail, but with the `File is empty`
error, which names neither `Order No` nor `Design` and carries no header
list. -/
theorem critical_columns_claim_counterexample_c5 :
    parseDailyOrdersGrid [] = Except.error "File is empty".toList ∧
    ¬("Order No".toList <:+: "File is empty".toList) ∧
    ¬("Design".toList <:+: "File is empty".toList) := by
  refine ⟨by decide, by decide, by decide⟩

/-- C5 amended: for every NON-EMPTY grid in which no scanned candidate row
locates both an Order No and a Design column, parsing fails, and the error
text names each critical column that is missing from the detected header
row and contains the literal list of detected header strings. -/
theorem missing_critical_columns_c5 :
    ∀ rows : Grid, rows ≠ [] →
      (∀ row ∈ rows.take 20,
        ¬(findColumnIndex row COLUMN_ALIASES_orderNo ≠ none ∧
          findColumnIndex row COLUMN_ALIASES_design ≠ none)) →
      ∃ msg, parseDailyOrdersGrid rows = Except.error msg ∧
        (findColumnIndex (rows.getD (detectHeaderRow rows) [])
            COLUMN_ALIASES_orderNo = none → "Order No".toList <:+: msg) ∧
        (findColumnIndex (rows.getD (detectHeaderRow rows) [])
            COLUMN_ALIASES_design = none → "Design".toList <:+: msg) ∧
        detectedHeadersText (rows.getD (detectHeaderRow rows) []) <:+: msg := by
  intro rows hne H
  have hnot := H _ (detectHeaderRow_mem rows hne)
  have hcrit : findColumnIndex (rows.getD (detectHeaderRow rows) [])
      COLUMN_ALIASES_orderNo = none ∨
      findColumnIndex (rows.getD (detectHeaderRow rows) [])
        COLUMN_ALIASES_design = none := by
    by_contra hcon
    push_neg at hcon
    exact hnot ⟨hcon.1, hcon.2⟩
  refine ⟨missingCriticalMessage
      ((if findColumnIndex (rows.getD (detectHeaderRow rows) [])
            COLUMN_ALIASES_orderNo = none then ["Order No".toList] else []) ++
       (if findColumnIndex (rows.getD (detectHeaderRow rows) [])
            COLUMN_ALIASES_design = none then ["Design".toList] else []))
      (detectHeaderRow rows)
      (detectedHeadersText (rows.getD (detectHeaderRow rows) [])), ?_, ?_, ?_, ?_⟩
  · simp only [parseDailyOrdersGrid]
    rw [if_neg (fun h0 => hne (List.length_eq_zero.mp h0))]
    rw [if_pos hcrit]
  · intro hOrdNone
    rw [if_pos hOrdNone]
    unfold missingCriticalMessage
    by_cases hDesNone : findColumnIndex (rows.getD (detectHeaderRow rows) [])
        COLUMN_ALIASES_design = none
    · rw [if_pos hDesNone]
      rw [show joinSep ", ".toList (["Order No".toList] ++ ["Design".toList]) =
        "Order No".toList ++ ", Design".toList from by decide]
      refine ⟨"Cannot parse file: Missing critical columns: ".toList,
        ", Design".toList ++ ".".toList ++ "\nDetected headers in row ".toList ++
          natStr (detectHeaderRow rows + 1) ++ ": ".toList ++
          detectedHeadersText (rows.getD (detectHeaderRow rows) []) ++
          "\nPlease ensure your file contains at minimum \"Order No\" and \"Design\" columns.".toList,
        ?_⟩
      simp [List.append_assoc]
    · rw [if_neg hDesNone]
      rw [show joinSep ", ".toList (["Order No".toList] ++ []) =
        "Order No".toList from by decide]
      refine ⟨"Cannot parse file: Missing critical columns: ".toList,
        ".".toList ++ "\nDetected headers in row ".toList ++
          natStr (detectHeaderRow rows + 1) ++ ": ".toList ++
          detectedHeadersText (rows.getD (detectHeaderRow rows) []) ++
          "\nPlease ensure your file contains at minimum \"Order No\" and \"Design\" columns.".toList,
        ?_⟩
      simp [List.append_assoc]
  · intro hDesNone
    rw [if_pos hDesNone]
    unfold missingCriticalMessage
    by_cases hOrdNone : findColumnIndex (rows.getD (detectHeaderRow rows) [])
        COLUMN_ALIASES_orderNo = none
    · rw [if_pos hOrdNone]
      rw [show joinSep ", ".toList (["Order No".toList] ++ ["Design".toList]) =
        "Order No, ".toList ++ "Design".toList from by decide]
      refine ⟨"Cannot parse file: Missing critical columns: ".toList ++
          "Order No, ".toList,
        ".".toList ++ "\nDetected headers in row ".toList ++
          natStr (detectHeaderRow rows + 1) ++ ": ".toList ++
          detectedHeadersText (rows.getD (detectHeaderRow rows) []) ++
          "\nPlease ensure your file contains at minimum \"Order No\" and \"Design\" columns.".toList,
        ?_⟩
      simp [List.append_assoc]
    · rw [if_neg hOrdNone]
      rw [show joinSep ", ".toList (([] : List Str) ++ ["Design".toList]) =
        "Design".toList from by decide]
      refine ⟨"Cannot parse file: Missing critical columns: ".toList,
        ".".toList ++ "\nDetected headers in row ".toList ++
          natStr (detectHeaderRow rows + 1) ++ ": ".toList ++
          detectedHeadersText (rows.getD (detectHeaderRow rows) []) ++
          "\nPlease ensure your file contains at minimum \"Order No\" and \"Design\" columns.".toList,
        ?_⟩
      simp [List.append_assoc]
  · unfold missingCriticalMessage
    refine ⟨"Cannot parse file: Missing critical columns: ".toList ++
        joinSep ", ".toList
          ((if findColumnIndex (rows.getD (detectHeaderRow rows) [])
                COLUMN_ALIASES_orderNo = none then ["Order No".toList] else []) ++
           (if findColumnIndex (rows.getD (detectHeaderRow rows) [])
                COLUMN_ALIASES_design = none then ["Design".toList] else [])) ++
        ".".toList ++ "\nDetected headers in row ".toList ++
        natStr (detectHeaderRow rows + 1) ++ ": ".toList,
      "\nPlease ensure your file contains at minimum \"Order No\" and \"Design\" columns.".toList,
      ?_⟩
    simp [List.append_assoc]

/-- C5 witness: the sheet with headers `Date, Customer` fails naming both
critical columns and showing the detected header list. -/
theorem missing_critical_columns_c5_witness :
    ∃ msg, parseDailyOrdersGrid [["Date".toList, "Customer".toList]] =
        Except.error msg ∧
      "Order No".toList <:+: msg ∧ "Design".toList <:+: msg ∧
      "Date, Customer".toList <:+: msg := by
  obtain ⟨msg, hp, hOrd, hDes, hDet⟩ :=
    missing_critical_columns_c5 [["Date".toList, "Customer".toList]]
      (by decide) (by decide)
  refine ⟨msg, hp, hOrd (by decide), hDes (by decide), ?_⟩
  have hdh : detectedHeadersText
      ([["Date".toList, "Customer".toList]].getD
        (detectHeaderRow [["Date".toList, "Customer".toList]]) []) =
      "Date, Customer".toList := by decide
  rw [← hdh]
  exact hDet

/-! ### C7 — idempotence of the three normalizers.
Character-level lemmas first. -/

theorem goodChar_spec {c : Char} (h : goodChar c = true) :
    isZeroWidth c = false ∧ isInvisibleControl c = false ∧ mapSpecialChar c = c := by
  unfold goodChar at h
  simp only [Bool.and_eq_true, Bool.not_eq_true', beq_iff_eq] at h
  exact ⟨h.1.1, h.1.2, h.2⟩

theorem goodChar_mapSpecial (c : Char) (h1 : isZeroWidth c = false)
    (h2 : isInvisibleControl c = false) : goodChar (mapSpecialChar c) = true := by
  unfold mapSpecialChar
  split_ifs with ha hb hc hd
  · decide
  · decide
  · decide
  · decide
  · unfold goodChar
    rw [h1, h2]
    rw [show mapSpecialChar c = c from by
      unfold mapSpecialChar; rw [if_neg ha, if_neg hb, if_neg hc, if_neg hd]]
    simp

/-- Every character whose code point is a space, quote, apostrophe, hyphen,
digit, ASCII letter or underscore is untouched by all the cleaning steps. -/
theorem goodChar_of_toNat (c : Char)
    (h : c.toNat = 32 ∨ c.toNat = 34 ∨ c.toNat = 39 ∨ c.toNat = 45 ∨
      (48 ≤ c.toNat ∧ c.toNat ≤ 57) ∨ (65 ≤ c.toNat ∧ c.toNat ≤ 90) ∨
      c.toNat = 95 ∨ (97 ≤ c.toNat ∧ c.toNat ≤ 122)) :
    goodChar c = true := by
  have hA0 : (c.toNat == 0x00A0) = false := by simp; omega
  have hD : isUnicodeDash c = false := by simp [isUnicodeDash]; omega
  have hS : isSingleQuoteVariant c = false := by simp [isSingleQuoteVariant]; omega
  have hQ : isDoubleQuoteVariant c = false := by simp [isDoubleQuoteVariant]; omega
  have hz : isZeroWidth c = false := by simp [isZeroWidth]; omega
  have hctl : isInvisibleControl c = false := by simp [isInvisibleControl]; omega
  unfold goodChar mapSpecialChar
  rw [hA0, hD, hS, hQ, hz, hctl]
  simp

theorem toNat_ofNat_add32 (c : Char) (h : 65 ≤ c.toNat ∧ c.toNat ≤ 90) :
    (Char.ofNat (c.toNat + 32)).toNat = c.toNat + 32 := by
  obtain ⟨h1, h2⟩ := h
  set m := c.toNat with hm
  interval_cases m <;> decide

theorem toLowerChar_toNat (c : Char) :
    (toLowerChar c = c ∧ ¬(65 ≤ c.toNat ∧ c.toNat ≤ 90)) ∨
    (97 ≤ (toLowerChar c).toNat ∧ (toLowerChar c).toNat ≤ 122 ∧
      (toLowerChar c).toNat = c.toNat + 32 ∧ 65 ≤ c.toNat ∧ c.toNat ≤ 90) := by
  unfold toLowerChar
  by_cases h : (65 ≤ c.toNat && c.toNat ≤ 90) = true
  · right
    rw [if_pos h]
    simp only [Bool.and_eq_true, decide_eq_true_eq] at h
    have hn := toNat_ofNat_add32 c h
    refine ⟨by omega, by omega, hn, h.1, h.2⟩
  · left
    rw [if_neg h]
    refine ⟨rfl, ?_⟩
    simpa using h

theorem toLowerChar_eq_self_of_not_upper (c : Char)
    (h : ¬(65 ≤ c.toNat ∧ c.toNat ≤ 90)) : toLowerChar c = c := by
  unfold toLowerChar
  rw [if_neg (by simpa using h)]

theorem toLowerChar_idem (c : Char) : toLowerChar (toLowerChar c) = toLowerChar c := by
  rcases toLowerChar_toNat c with ⟨heq, _⟩ | ⟨h1, h2, _⟩
  · rw [heq, heq]
  · exact toLowerChar_eq_self_of_not_upper _ (by omega)

theorem isJsWhitespace_toLower (c : Char) :
    isJsWhitespace (toLowerChar c) = isJsWhitespace c := by
  rcases toLowerChar_toNat c with ⟨heq, _⟩ | ⟨h1, h2, _, hc1, hc2⟩
  · rw [heq]
  · have w1 : isJsWhitespace (toLowerChar c) = false := by
      simp [isJsWhitespace]; omega
    have w2 : isJsWhitespace c = false := by
      simp [isJsWhitespace]; omega
    rw [w1, w2]

theorem toLowerChar_space_beq (c : Char) : (toLowerChar c == ' ') = (c == ' ') := by
  rcases toLowerChar_toNat c with ⟨heq, _⟩ | ⟨h1, h2, _, hc1, hc2⟩
  · rw [heq]
  · have w1 : (toLowerChar c == ' ') = false := by
      simp only [beq_eq_false_iff_ne, Ne]
      intro hsp
      rw [hsp] at h1
      simp at h1
    have w2 : (c == ' ') = false := by
      simp only [beq_eq_false_iff_ne, Ne]
      intro hsp
      rw [hsp] at hc1
      simp at hc1
    rw [w1, w2]


/-! Collapse / trim shape lemmas.  The step equations below hold by `rfl`
and keep the proofs independent of how the equation compiler unfolds. -/

theorem collapseWsAux_cons (b : Bool) (c : Char) (rest : Str) :
    collapseWsAux b (c :: rest) =
      if isJsWhitespace c then
        if b then collapseWsAux true rest else ' ' :: collapseWsAux true rest
      else c :: collapseWsAux false rest := rfl

theorem wellSpacedAux_cons (b : Bool) (c : Char) (rest : Str) :
    wellSpacedAux b (c :: rest) =
      if isJsWhitespace c then !b && (c == ' ') && wellSpacedAux true rest
      else wellSpacedAux false rest := rfl

theorem dropTrailingWs_cons (c : Char) (rest : Str) :
    dropTrailingWs (c :: rest) =
      if dropTrailingWs rest = [] && isJsWhitespace c then []
      else c :: dropTrailingWs rest := rfl

theorem wellSpaced_collapseWsAux : ∀ l : Str,
    wellSpacedAux false (collapseWsAux false l) = true ∧
    ∀ b, wellSpacedAux b (collapseWsAux true l) = true := by
  intro l
  induction l with
  | nil => exact ⟨rfl, fun _ => rfl⟩
  | cons c rest ih =>
    by_cases hws : isJsWhitespace c = true
    · constructor
      · rw [collapseWsAux_cons, if_pos hws, if_neg (by simp)]
        rw [wellSpacedAux_cons, if_pos (by decide), ih.2 true]
        rfl
      · intro b
        rw [collapseWsAux_cons, if_pos hws, if_pos rfl]
        exact ih.2 b
    · constructor
      · rw [collapseWsAux_cons, if_neg hws, wellSpacedAux_cons, if_neg hws]
        exact ih.1
      · intro b
        rw [collapseWsAux_cons, if_neg hws, wellSpacedAux_cons, if_neg hws]
        exact ih.1

theorem collapseWsAux_eq_self : ∀ l : Str,
    (wellSpacedAux false l = true → collapseWsAux false l = l) ∧
    (wellSpacedAux true l = true → collapseWsAux true l = l) := by
  intro l
  induction l with
  | nil => exact ⟨fun _ => rfl, fun _ => rfl⟩
  | cons c rest ih =>
    by_cases hws : isJsWhitespace c = true
    · constructor
      · intro h
        rw [wellSpacedAux_cons, if_pos hws] at h
        simp only [Bool.and_eq_true, beq_iff_eq] at h
        obtain ⟨⟨_, hsp⟩, hrest⟩ := h
        rw [collapseWsAux_cons, if_pos hws, if_neg (by simp), hsp, ih.2 hrest]
      · intro h
        rw [wellSpacedAux_cons, if_pos hws] at h
        simp at h
    · constructor
      · intro h
        rw [wellSpacedAux_cons, if_neg hws] at h
        rw [collapseWsAux_cons, if_neg hws, ih.1 h]
      · intro h
        rw [wellSpacedAux_cons, if_neg hws] at h
        rw [collapseWsAux_cons, if_neg hws, ih.1 h]

theorem wellSpaced_relax {l : Str} (h : wellSpacedAux true l = true) :
    wellSpacedAux false l = true := by
  cases l with
  | nil => rfl
  | cons c rest =>
    by_cases hws : isJsWhitespace c = true
    · rw [wellSpacedAux_cons, if_pos hws] at h
      simp at h
    · rw [wellSpacedAux_cons, if_neg hws] at h
      rw [wellSpacedAux_cons, if_neg hws]
      exact h

theorem dropWhile_eq_self_of_wellSpacedTrue {l : Str}
    (h : wellSpacedAux true l = true) : l.dropWhile isJsWhitespace = l := by
  cases l with
  | nil => rfl
  | cons c rest =>
    by_cases hws : isJsWhitespace c = true
    · rw [wellSpacedAux_cons, if_pos hws] at h
      simp at h
    · rw [List.dropWhile_cons_of_neg (by simpa using hws)]

theorem wellSpaced_dropWhile {l : Str} (h : wellSpacedAux false l = true) :
    wellSpacedAux true (l.dropWhile isJsWhitespace) = true := by
  cases l with
  | nil => rfl
  | cons c rest =>
    by_cases hws : isJsWhitespace c = true
    · rw [wellSpacedAux_cons, if_pos hws] at h
      simp only [Bool.and_eq_true, beq_iff_eq] at h
      obtain ⟨⟨_, _⟩, hrest⟩ := h
      rw [List.dropWhile_cons_of_pos hws,
        dropWhile_eq_self_of_wellSpacedTrue hrest]
      exact hrest
    · rw [List.dropWhile_cons_of_neg (by simpa using hws)]
      rw [wellSpacedAux_cons, if_neg hws] at h ⊢
      exact h

theorem wellSpaced_dropTrailingWs : ∀ (l : Str) (b : Bool),
    wellSpacedAux b l = true →
    wellSpacedAux b (dropTrailingWs l) = true ∧
      lastNotWs (dropTrailingWs l) = true := by
  intro l
  induction l with
  | nil => intro b _; exact ⟨rfl, rfl⟩
  | cons c rest ih =>
    intro b h
    rw [dropTrailingWs_cons]
    by_cases hws : isJsWhitespace c = true
    · rw [wellSpacedAux_cons, if_pos hws] at h
      simp only [Bool.and_eq_true, Bool.not_eq_true', beq_iff_eq] at h
      obtain ⟨⟨hb, hsp⟩, hrest⟩ := h
      obtain ⟨hr1, hr2⟩ := ih true hrest
      by_cases hrnil : dropTrailingWs rest = []
      · rw [if_pos (by simp [hrnil, hws])]
        exact ⟨by cases b <;> rfl, rfl⟩
      · rw [if_neg (by simp [hrnil])]
        subst hb
        constructor
        · rw [wellSpacedAux_cons, if_pos hws, hsp, hr1]
          rfl
        · unfold lastNotWs
          rcases hdt : dropTrailingWs rest with _ | ⟨x, xs⟩
          · exact absurd hdt hrnil
          · rw [List.getLast?_cons_cons]
            unfold lastNotWs at hr2
            rw [hdt] at hr2
            exact hr2
    · rw [wellSpacedAux_cons, if_neg hws] at h
      obtain ⟨hr1, hr2⟩ := ih false h
      rw [if_neg (by simp [hws])]
      constructor
      · rw [wellSpacedAux_cons, if_neg hws]
        exact hr1
      · unfold lastNotWs
        rcases hdt : dropTrailingWs rest with _ | ⟨x, xs⟩
        · simpa using hws
        · rw [List.getLast?_cons_cons]
          unfold lastNotWs at hr2
          rw [hdt] at hr2
          exact hr2

theorem dropTrailingWs_eq_self : ∀ l : Str, lastNotWs l = true → dropTrailingWs l = l := by
  intro l
  induction l with
  | nil => intro _; rfl
  | cons c rest ih =>
    intro h
    rw [dropTrailingWs_cons]
    cases rest with
    | nil =>
      unfold lastNotWs at h
      simp only [List.getLast?_singleton, Bool.not_eq_true'] at h
      rw [if_neg (by simp [h])]
      rfl
    | cons x xs =>
      unfold lastNotWs at h
      rw [List.getLast?_cons_cons] at h
      have hxs := ih h
      rw [if_neg (by simp [hxs])]
      rw [hxs]

theorem wellSpaced_mem_ws : ∀ (b : Bool) (l : Str), wellSpacedAux b l = true →
    ∀ c ∈ l, isJsWhitespace c = true → c = ' ' := by
  intro b l
  induction l generalizing b with
  | nil => intro _ c hc; cases hc
  | cons d rest ih =>
    intro h c hc hcw
    by_cases hws : isJsWhitespace d = true
    · rw [wellSpacedAux_cons, if_pos hws] at h
      simp only [Bool.and_eq_true, beq_iff_eq] at h
      obtain ⟨⟨_, hsp⟩, hrest⟩ := h
      rcases List.mem_cons.mp hc with rfl | hc2
      · exact hsp
      · exact ih true hrest c hc2 hcw
    · rw [wellSpacedAux_cons, if_neg hws] at h
      rcases List.mem_cons.mp hc with rfl | hc2
      · exact absurd hcw hws
      · exact ih false h c hc2 hcw

theorem mem_collapseWsAux : ∀ (b : Bool) (l : Str) (c : Char),
    c ∈ collapseWsAux b l → c = ' ' ∨ c ∈ l := by
  intro b l
  induction l generalizing b with
  | nil => intro c hc; cases hc
  | cons d rest ih =>
    intro c hc
    rw [collapseWsAux_cons] at hc
    by_cases hws : isJsWhitespace d = true
    · rw [if_pos hws] at hc
      cases b with
      | true =>
        rw [if_pos rfl] at hc
        rcases ih true c hc with h1 | h1
        · exact Or.inl h1
        · exact Or.inr (List.mem_cons_of_mem _ h1)
      | false =>
        rw [if_neg (by simp)] at hc
        rcases List.mem_cons.mp hc with rfl | hc2
        · exact Or.inl rfl
        · rcases ih true c hc2 with h1 | h1
          · exact Or.inl h1
          · exact Or.inr (List.mem_cons_of_mem _ h1)
    · rw [if_neg hws] at hc
      rcases List.mem_cons.mp hc with rfl | hc2
      · exact Or.inr (List.mem_cons_self _ _)
      · rcases ih false c hc2 with h1 | h1
        · exact Or.inl h1
        · exact Or.inr (List.mem_cons_of_mem _ h1)

theorem mem_dropTrailingWs2 : ∀ (l : Str) (c : Char),
    c ∈ dropTrailingWs l → c ∈ l := by
  intro l
  induction l with
  | nil => intro c hc; cases hc
  | cons d rest ih =>
    intro c hc
    rw [dropTrailingWs_cons] at hc
    split at hc
    · cases hc
    · rcases List.mem_cons.mp hc with rfl | hc2
      · exact List.mem_cons_self _ _
      · exact List.mem_cons_of_mem _ (ih c hc2)

theorem mem_jsTrim (l : Str) (c : Char) (h : c ∈ jsTrim l) : c ∈ l := by
  unfold jsTrim at h
  exact (List.dropWhile_sublist _).subset (mem_dropTrailingWs2 _ c h)

/-! Canonical-form production and consumption. -/

theorem canonical_trim_collapse (m : Str) :
    wellSpacedAux true (jsTrim (collapseWs m)) = true ∧
      lastNotWs (jsTrim (collapseWs m)) = true := by
  have h1 := (wellSpaced_collapseWsAux m).1
  have h2 := wellSpaced_dropWhile h1
  exact wellSpaced_dropTrailingWs _ true h2

theorem collapse_trim_eq_self (l : Str) (h1 : wellSpacedAux true l = true)
    (h2 : lastNotWs l = true) : collapseWs l = l ∧ jsTrim l = l := by
  refine ⟨(collapseWsAux_eq_self l).1 (wellSpaced_relax h1), ?_⟩
  unfold jsTrim
  rw [dropWhile_eq_self_of_wellSpacedTrue h1]
  exact dropTrailingWs_eq_self l h2

theorem goodChar_normalizeCellValue (s : Str) :
    ∀ c ∈ normalizeCellValue s, goodChar c = true := by
  intro c hc
  unfold normalizeCellValue at hc
  have hc2 := mem_jsTrim _ _ hc
  rcases mem_collapseWsAux false _ c hc2 with rfl | hc3
  · decide
  · rcases List.mem_map.mp hc3 with ⟨d, hd, rfl⟩
    have hctl : isInvisibleControl d = false := by
      have := List.of_mem_filter hd
      simpa using this
    have hzw : isZeroWidth d = false := by
      have := List.of_mem_filter (List.mem_of_mem_filter hd)
      simpa using this
    exact goodChar_mapSpecial d hzw hctl

theorem normalizeCellValue_canonical (s : Str) : canonicalStr (normalizeCellValue s) := by
  refine ⟨goodChar_normalizeCellValue s, ?_, ?_⟩
  · exact (canonical_trim_collapse _).1
  · exact (canonical_trim_collapse _).2

theorem normalizeCellValue_eq_self {l : Str} (h : canonicalStr l) :
    normalizeCellValue l = l := by
  obtain ⟨hg, hw, hl⟩ := h
  unfold normalizeCellValue
  rw [List.filter_eq_self.mpr (fun c hc => by
    rw [(goodChar_spec (hg c (List.mem_of_mem_filter hc))).2.1]; rfl)]
  rw [List.filter_eq_self.mpr (fun c hc => by
    rw [(goodChar_spec (hg c hc)).1]; rfl)]
  rw [List.map_congr_left (fun c hc => (goodChar_spec (hg c hc)).2.2), List.map_id']
  obtain ⟨hcol, htrim⟩ := collapse_trim_eq_self l hw hl
  rw [show collapseWs l = l from hcol, htrim]

theorem canonical_map_toLower {l : Str} (h : canonicalStr l) :
    canonicalStr (l.map toLowerChar) := by
  obtain ⟨hg, hw, hl⟩ := h
  refine ⟨?_, ?_, ?_⟩
  · intro c hc
    rcases List.mem_map.mp hc with ⟨d, hd, rfl⟩
    rcases toLowerChar_toNat d with ⟨heq, _⟩ | ⟨h1, h2, _⟩
    · rw [heq]; exact hg d hd
    · exact goodChar_of_toNat _ (by omega)
  · have hmap : ∀ (b : Bool) (m : Str), wellSpacedAux b m = true →
        wellSpacedAux b (m.map toLowerChar) = true := by
      intro b m
      induction m generalizing b with
      | nil => intro _; rfl
      | cons c rest ih =>
        intro hm
        rw [List.map_cons, wellSpacedAux_cons, isJsWhitespace_toLower,
          toLowerChar_space_beq]
        rw [wellSpacedAux_cons] at hm
        by_cases hws : isJsWhitespace c = true
        · rw [if_pos hws] at hm ⊢
          simp only [Bool.and_eq_true] at hm ⊢
          exact ⟨hm.1, ih true hm.2⟩
        · rw [if_neg hws] at hm ⊢
          exact ih false hm
    exact hmap true l hw
  · unfold lastNotWs at hl ⊢
    rw [List.getLast?_map]
    rcases hlast : l.getLast? with _ | c
    · rfl
    · rw [hlast] at hl
      show (!isJsWhitespace (toLowerChar c)) = true
      rw [isJsWhitespace_toLower]
      exact hl

/-- C7, part for `normalizeDesignCode`. -/
theorem normalizeDesignCode_idem (s : Str) :
    normalizeDesignCode (normalizeDesignCode s) = normalizeDesignCode s := by
  have hcan := canonical_map_toLower (normalizeCellValue_canonical s)
  show (normalizeCellValue ((normalizeCellValue s).map toLowerChar)).map toLowerChar =
    (normalizeCellValue s).map toLowerChar
  rw [normalizeCellValue_eq_self hcan, List.map_map]
  exact List.map_congr_left (fun c _ => toLowerChar_idem c)

/-- C7, part for `normalizeCellValue`. -/
theorem normalizeCellValue_idem (s : Str) :
    normalizeCellValue (normalizeCellValue s) = normalizeCellValue s :=
  normalizeCellValue_eq_self (normalizeCellValue_canonical s)

/-- C7, part for `normalizeHeader`. -/
theorem normalizeHeader_idem (s : Str) :
    normalizeHeader (normalizeHeader s) = normalizeHeader s := by
  have hshape := canonical_trim_collapse
    (((normalizeCellValue s).map toLowerChar).filter
      (fun c => isWordChar c || isJsWhitespace c))
  have hmemx : ∀ c ∈ normalizeHeader s,
      c = ' ' ∨ c ∈ ((normalizeCellValue s).map toLowerChar).filter
        (fun c => isWordChar c || isJsWhitespace c) := by
    intro c hc
    unfold normalizeHeader at hc
    exact mem_collapseWsAux false _ c (mem_jsTrim _ _ hc)
  have hgood : ∀ c ∈ normalizeHeader s, goodChar c = true := by
    intro c hc
    rcases hmemx c hc with rfl | hcx
    · decide
    · rcases List.mem_map.mp (List.mem_of_mem_filter hcx) with ⟨d, hd, rfl⟩
      rcases toLowerChar_toNat d with ⟨heq, _⟩ | ⟨h1, h2, _⟩
      · rw [heq]
        exact goodChar_normalizeCellValue s d hd
      · exact goodChar_of_toNat _ (by omega)
  have hcanon : canonicalStr (normalizeHeader s) := ⟨hgood, hshape.1, hshape.2⟩
  have hlower : ∀ c ∈ normalizeHeader s, toLowerChar c = c := by
    intro c hc
    rcases hmemx c hc with rfl | hcx
    · decide
    · rcases List.mem_map.mp (List.mem_of_mem_filter hcx) with ⟨d, _, rfl⟩
      exact toLowerChar_idem d
  have hword : ∀ c ∈ normalizeHeader s, (isWordChar c || isJsWhitespace c) = true := by
    intro c hc
    rcases hmemx c hc with rfl | hcx
    · decide
    · have h2 := List.of_mem_filter hcx
      simpa using h2
  show jsTrim (collapseWs
      (((normalizeCellValue (normalizeHeader s)).map toLowerChar).filter
        (fun c => isWordChar c || isJsWhitespace c))) = normalizeHeader s
  rw [normalizeCellValue_eq_self hcanon]
  rw [List.map_congr_left hlower, List.map_id']
  rw [List.filter_eq_self.mpr hword]
  obtain ⟨hcol, htrim⟩ := collapse_trim_eq_self _ hshape.1 hshape.2
  rw [show collapseWs (normalizeHeader s) = normalizeHeader s from hcol]
  exact htrim

/-- C7: each of `normalizeCellValue`, `normalizeHeader` and
`normalizeDesignCode` is idempotent: applying it twice yields the same
result as applying it once, for every string. -/
theorem normalization_idempotent_c7 :
    (∀ s : Str, normalizeCellValue (normalizeCellValue s) = normalizeCellValue s) ∧
    (∀ s : Str, normalizeHeader (normalizeHeader s) = normalizeHeader s) ∧
    (∀ s : Str, normalizeDesignCode (normalizeDesignCode s) = normalizeDesignCode s) :=
  ⟨normalizeCellValue_idem, normalizeHeader_idem, normalizeDesignCode_idem⟩

end DailyOrders
